import Mathlib

/-!
Shallow embedding of the shard-pruning module
(`src/backend/distributed/planner/shard_pruning.c`) of the repository.

Machine values that the comparators act on (PostgreSQL `Datum`s for the
partition column) are modelled as `Int`; the table's value comparator and
interval comparator are both modelled as the standard `Int` ordering, so
`PerformValueCompare(a, b) < 0` becomes `a < b`, and so on.  Catalog
lookups (`get_op_btree_interpretation`, `OperatorImplementsEquality`) are
modelled as data carried on the operator nodes themselves, and
`strip_implicit_coercions` is modelled by representing operands in already
stripped form.  PostgreSQL `List` cells are Lean lists; `lappend` is
`++ [x]`; `list_union_ptr` / `list_append_unique_ptr` compare elements
structurally, which matches pointer comparison because all candidates come
from the same `sortedShardIntervalArray`.
-/

set_option maxHeartbeats 1000000

namespace ShardPruning

/-- Btree strategy numbers of an operator interpretation
(`BTLessStrategyNumber` .. `BTGreaterStrategyNumber`, plus `ROWCOMPARE_NE`). -/
inductive Strategy where
  | lt
  | le
  | eq
  | ge
  | gt
  | ne
deriving DecidableEq, Repr

/-- Constant type tag; only `BOOLOID` is ever inspected (in `ContainsFalseClause`). -/
inductive PType where
  | boolT
  | intT
  | otherT
deriving DecidableEq, Repr

/-- A PostgreSQL `Const` node: type oid, datum value, null flag.
A NULL constant is created by PostgreSQL with datum value 0. -/
structure PConst where
  typ : PType
  value : Int
  isNull : Bool
deriving DecidableEq, Repr

/-- An operand of a binary operator expression, after `strip_implicit_coercions`:
a `Var` (identified by its attribute number), a `Const`, or anything else. -/
inductive POperand where
  | var (attno : Int)
  | const (c : PConst)
  | otherOperand
deriving DecidableEq, Repr

/-- The right-hand argument of a `ScalarArrayOpExpr`: either not a `Const` node,
a `Const` whose datum is NULL (datum value 0), or a constant array of elements. -/
inductive SaoArray where
  | notConst
  | nullConst
  | arrayConst (elems : List PConst)
deriving DecidableEq, Repr

/-- Predicate tree nodes, covering the node types `BuildPruneTree` (and
`ContainsFalseClause`) distinguish: `List`, `BoolExpr` (AND/OR/NOT),
`OpExpr` (with the btree interpretations of its operator and its argument
list), `ScalarArrayOpExpr` (with the equality flag of its operator, the
stripped left operand, and the array argument), a bare `Const`,
and any other node type. -/
inductive PgNode where
  | nodeList (items : List PgNode)
  | boolAnd (args : List PgNode)
  | boolOr (args : List PgNode)
  | boolNot (arg : PgNode)
  | opExpr (interp : List Strategy) (args : List POperand)
  | saoExpr (eqOp : Bool) (lhs : POperand) (arr : SaoArray)
  | constExpr (c : PConst)
  | otherExpr

/-- `AND_EXPR` / `OR_EXPR` as used in `PruneNode.boolOp`. -/
inductive BoolOp where
  | and
  | or
deriving DecidableEq, Repr

/-- `ConditionWrapper`: carries the valid constraints collected so far; a wrapper
with an empty list is the marker for a condition that could not be classified. -/
structure ConditionWrapper where
  validConstraints : List PgNode

/-- `PruneNode`: a boolean operator, child boolean nodes, and condition slots. -/
inductive PruneNode where
  | mk (boolOp : BoolOp) (bools : List PruneNode) (conditions : List ConditionWrapper)

def PruneNode.boolOp : PruneNode → BoolOp
  | .mk op _ _ => op

def PruneNode.bools : PruneNode → List PruneNode
  | .mk _ b _ => b

def PruneNode.conditions : PruneNode → List ConditionWrapper
  | .mk _ _ c => c

/-- `ShardInterval`: shard id plus the interval boundaries and their existence flags. -/
structure ShardInterval where
  shardId : Nat
  minValue : Int
  maxValue : Int
  minValueExists : Bool
  maxValueExists : Bool
deriving DecidableEq, Repr

/-- Default shard interval used where the C code indexes the interval array
at an index its control flow guarantees to be in bounds. -/
def dfltShard : ShardInterval := ⟨0, 0, 0, false, false⟩

/-- Partitioning method of the table (`partmethod`): `DISTRIBUTE_BY_HASH`,
`DISTRIBUTE_BY_RANGE`, `DISTRIBUTE_BY_APPEND`, `DISTRIBUTE_BY_NONE`. -/
inductive PartitionMethod where
  | byHash
  | byRange
  | byAppend
  | byNone
deriving DecidableEq, Repr

/-- The slice of `DistTableCacheEntry` that `PruneShards` consumes, together
with the partition column (as an attribute number, from `PartitionColumn`)
and flags recording whether the two comparator functions are present.
`hashFn` is the partition-type hash function used by the metadata layer for
hash-distributed tables (consumed only by the spec-modelled
`FindShardInterval` / `FindShardIntervalIndex`). -/
structure CacheEntry where
  partitionMethod : PartitionMethod
  partitionColumn : Int
  sortedShardIntervalArray : List ShardInterval
  hasOverlappingShardInterval : Bool
  hasShardIntervalCompareFunction : Bool
  hasShardColumnCompareFunction : Bool
  hashFn : Int → Int

/-- `RESERVED_HASHED_COLUMN_ID`: the reserved attribute number that marks a
restriction on the pre-hashed column value. -/
def reservedHashedColumnId : Int := -2

/-- `PruningInstance`: the accumulated constraints of one AND-branch. -/
structure PruningInstance where
  hasValidConstraint : Bool
  evaluatesToFalse : Bool
  lessConsts : Option PConst
  lessEqualConsts : Option PConst
  equalConsts : Option PConst
  greaterEqualConsts : Option PConst
  greaterConsts : Option PConst
  saoEqualConsts : List PConst
  hashedEqualConsts : Option PConst
  otherRestrictions : List PgNode
  addedToPruningInstances : Bool
  isPartial : Bool

/-- A freshly `palloc0`ed `PruningInstance`. -/
def emptyInstance : PruningInstance :=
  ⟨false, false, Option.none, Option.none, Option.none, Option.none, Option.none,
   [], Option.none, [], false, false⟩

/-- PostgreSQL `list_union_ptr`: start from the first list and append each
element of the second list that is not already a member of the result. -/
def listUnionPtr (l1 l2 : List ShardInterval) : List ShardInterval :=
  l2.foldl (fun res x => if res.contains x then res else res ++ [x]) l1

/-- PostgreSQL `list_append_unique_ptr`. -/
def listAppendUniquePtr (l : List ShardInterval) (x : ShardInterval) : List ShardInterval :=
  if l.contains x then l else l ++ [x]

/-- `IsValidPartitionKeyRestriction`: the operator has at least one btree
interpretation and none of its interpretations is `ROWCOMPARE_NE`. -/
def IsValidPartitionKeyRestriction (interp : List Strategy) : Bool :=
  if interp.contains Strategy.ne then false else !interp.isEmpty

/-- `IsValidHashRestriction`: some btree interpretation of the operator is
`BTGreaterEqualStrategyNumber`. -/
def IsValidHashRestriction (interp : List Strategy) : Bool :=
  interp.contains Strategy.ge

/-- `IsValidSAOPartitionKeyRestriction`: equality operator, left operand equal
to the partition column, array argument a non-NULL constant. -/
def IsValidSAOPartitionKeyRestriction (pc : Int) (eqOp : Bool) (lhs : POperand)
    (arr : SaoArray) : Bool :=
  eqOp &&
    (match lhs with
     | .var a => decide (a = pc)
     | _ => false) &&
    (match arr with
     | .arrayConst _ => true
     | .nullConst => false
     | .notConst => false)

/-- The operand-shape dissection shared by `IsValidConditionNode`,
`HandleConditionNode` and `PrunableExpressionsWalker`: a binary operator whose
sides (after stripping implicit coercions) are one `Const` and one `Var`. -/
def dissectOpArgs (args : List POperand) : Option (PConst × Int) :=
  if args.length = 2 then
    match args with
    | [POperand.var a, POperand.const c] => some (c, a)
    | [POperand.const c, POperand.var a] => some (c, a)
    | _ => Option.none
  else Option.none

/-- `IsValidConditionNode`. -/
def IsValidConditionNode (node : PgNode) (pc : Int) : Bool :=
  match node with
  | .opExpr interp args =>
    match dissectOpArgs args with
    | some (_, a) =>
      if a = pc then IsValidPartitionKeyRestriction interp
      else if a = reservedHashedColumnId then IsValidHashRestriction interp
      else false
    | Option.none => false
  | .saoExpr eqOp lhs arr => IsValidSAOPartitionKeyRestriction pc eqOp lhs arr
  | _ => false

/-- `FindValidConditionWrapper`: the first wrapper with a nonempty constraint list. -/
def FindValidConditionWrapper (conds : List ConditionWrapper) : Option ConditionWrapper :=
  conds.find? (fun w => !w.validConstraints.isEmpty)

/-- `FindInvalidConditionWrapper`: the first wrapper with an empty constraint list. -/
def FindInvalidConditionWrapper (conds : List ConditionWrapper) : Option ConditionWrapper :=
  conds.find? (fun w => w.validConstraints.isEmpty)

/-- Append a constraint into the first wrapper that already holds valid
constraints (the in-place `lappend` on the wrapper found by
`FindValidConditionWrapper`). -/
def appendToValidWrapper (conds : List ConditionWrapper) (n : PgNode) : List ConditionWrapper :=
  match conds with
  | [] => []
  | w :: ws =>
    if w.validConstraints.isEmpty then w :: appendToValidWrapper ws n
    else ⟨w.validConstraints ++ [n]⟩ :: ws

/-- `AppendConstraint`: `some n` is a valid constraint, `Option.none` is the
`NULL` argument marking an unclassifiable condition. -/
def AppendConstraint (conds : List ConditionWrapper) (vc : Option PgNode) :
    List ConditionWrapper :=
  let hasInvalid := (FindInvalidConditionWrapper conds).isSome
  let hasValid := (FindValidConditionWrapper conds).isSome
  match vc with
  | some n =>
    if hasValid then appendToValidWrapper conds n
    else conds ++ [⟨[n]⟩]
  | Option.none =>
    if hasInvalid then conds
    else conds ++ [⟨[]⟩]

/-- How `BuildPruneTree` records an `OpExpr` / `ScalarArrayOpExpr` into the
condition list of the prune node currently being built. -/
def addCondition (pc : Int) (curOp : BoolOp) (conds : List ConditionWrapper)
    (node : PgNode) : List ConditionWrapper :=
  if curOp = BoolOp.and then
    if IsValidConditionNode node pc then AppendConstraint conds (some node)
    else AppendConstraint conds Option.none
  else
    if IsValidConditionNode node pc then conds ++ [⟨[node]⟩]
    else AppendConstraint conds Option.none

mutual

/-- `BuildPruneTree`, one node: threads the (bools, conditions) state of the
prune node under construction.  A `NOT` and any unrecognized node type are
skipped without recording anything; a `BoolExpr` whose operator differs from
the current node's operator starts a fresh child node; `List`s and same-operator
`BoolExpr`s are walked through (`expression_tree_walker`). -/
def buildStep (pc : Int) (curOp : BoolOp)
    (st : List PruneNode × List ConditionWrapper) :
    PgNode → List PruneNode × List ConditionWrapper
  | .nodeList items => buildSteps pc curOp st items
  | .boolNot _ => st
  | .boolAnd args =>
    if curOp = BoolOp.and then buildSteps pc curOp st args
    else
      let c := buildSteps pc BoolOp.and ([], []) args
      (st.1 ++ [PruneNode.mk BoolOp.and c.1 c.2], st.2)
  | .boolOr args =>
    if curOp = BoolOp.or then buildSteps pc curOp st args
    else
      let c := buildSteps pc BoolOp.or ([], []) args
      (st.1 ++ [PruneNode.mk BoolOp.or c.1 c.2], st.2)
  | .opExpr interp args => (st.1, addCondition pc curOp st.2 (PgNode.opExpr interp args))
  | .saoExpr eqOp lhs arr => (st.1, addCondition pc curOp st.2 (PgNode.saoExpr eqOp lhs arr))
  | .constExpr _ => st
  | .otherExpr => st

/-- `BuildPruneTree` over a list of nodes (`expression_tree_walker` on a `List`). -/
def buildSteps (pc : Int) (curOp : BoolOp)
    (st : List PruneNode × List ConditionWrapper) :
    List PgNode → List PruneNode × List ConditionWrapper
  | [] => st
  | n :: ns => buildSteps pc curOp (buildStep pc curOp st n) ns

end

/-- The root prune node `PruneShards` builds: an `AND_EXPR` node filled by
calling `BuildPruneTree` on the where-clause list. -/
def BuildPruneTree (pc : Int) (whereClauseList : List PgNode) : PruneNode :=
  let st := buildSteps pc BoolOp.and ([], []) whereClauseList
  PruneNode.mk BoolOp.and st.1 st.2

/-- `IsPullUpBooleanOp`: fewer than two children plus conditions. -/
def IsPullUpBooleanOp (node : PruneNode) : Bool :=
  decide (node.bools.length + node.conditions.length < 2)

mutual

/-- `PullUpBooleanOps`: after recursively processing the children, a node with
fewer than two children-plus-conditions that has a (single) boolean child is
replaced by that child's content. -/
def PullUpBooleanOps : PruneNode → PruneNode
  | .mk op bools conds =>
    let newBools := pullUpList bools
    if bools.length + conds.length < 2 then
      match newBools with
      | [c] => c
      | _ => PruneNode.mk op newBools conds
    else PruneNode.mk op newBools conds

def pullUpList : List PruneNode → List PruneNode
  | [] => []
  | n :: ns => PullUpBooleanOps n :: pullUpList ns

end

mutual

/-- `SeparateOrConditionsFromBools`: after recursing into the children, every
condition slot of an `OR` node is wrapped into its own singleton `AND` child
and the `OR` node's own condition list is cleared. -/
def SeparateOrConditionsFromBools : PruneNode → PruneNode
  | .mk op bools conds =>
    let bs := separateOrList bools
    if op = BoolOp.or ∧ ¬conds.isEmpty then
      PruneNode.mk BoolOp.or (bs ++ conds.map (fun w => PruneNode.mk BoolOp.and [] [w])) []
    else PruneNode.mk op bs conds

def separateOrList : List PruneNode → List PruneNode
  | [] => []
  | n :: ns => SeparateOrConditionsFromBools n :: separateOrList ns

end

/-- `MakeORofAnds`. -/
def MakeORofAnds (otherOrs : List PruneNode) (orConds andConds : List ConditionWrapper) :
    List PruneNode :=
  if otherOrs.isEmpty ∧ andConds.isEmpty then []
  else if otherOrs.isEmpty then
    orConds.map (fun c => PruneNode.mk BoolOp.and [] (andConds ++ [c]))
  else
    (orConds.map (fun c =>
      (otherOrs.map (fun oo =>
        oo.conditions.map (fun c2 =>
          PruneNode.mk BoolOp.and [] (andConds ++ [c] ++ [c2])))).flatten)).flatten

/-- The `foreach` loop in the `AND` case of `OneBooleanDistributeToORofANDs`.
`list_delete_ptr(andNode->bools, orNode)` destructively removes the current
cell from the child list, so at the iteration for the i-th child the remaining
list is the suffix after it, and the iteration continues over the original
cells; `newOr->bools` is overwritten by each iteration (not accumulated). -/
def distributeAndLoop (andConds : List ConditionWrapper) :
    List PruneNode → List PruneNode → List PruneNode
  | [], acc => acc
  | orNode :: rest, _ =>
    distributeAndLoop andConds rest
      (MakeORofAnds rest orNode.conditions andConds ++ orNode.bools)

mutual

/-- `OneBooleanDistributeToORofANDs`. -/
def OneBooleanDistributeToORofANDs : PruneNode → PruneNode
  | .mk BoolOp.or bools conds =>
    if ¬bools.isEmpty then PruneNode.mk BoolOp.or (distributeOrChildren bools) conds
    else PruneNode.mk BoolOp.or bools conds
  | .mk BoolOp.and bools conds =>
    if ¬bools.isEmpty then PruneNode.mk BoolOp.or (distributeAndLoop conds bools []) []
    else if ¬conds.isEmpty then
      PruneNode.mk BoolOp.or [PruneNode.mk BoolOp.and bools conds] []
    else PruneNode.mk BoolOp.or [] []

/-- The `foreach` in the `OR` case: concatenate the `bools` of the recursively
distributed children. -/
def distributeOrChildren : List PruneNode → List PruneNode
  | [] => []
  | n :: ns => (OneBooleanDistributeToORofANDs n).bools ++ distributeOrChildren ns

end

mutual

/-- `ConstainsORLeaf` (name as in the source). -/
def ConstainsORLeaf : PruneNode → Bool
  | .mk op bools _ =>
    (decide (op = BoolOp.or) && bools.isEmpty) || anyORLeaf bools

def anyORLeaf : List PruneNode → Bool
  | [] => false
  | n :: ns => ConstainsORLeaf n || anyORLeaf ns

end

/-- `BooleanDistributeToORofANDs`: the `do { ... } while (false)` loop body runs
exactly once (`needsContinue` is computed but never consulted). -/
def BooleanDistributeToORofANDs (node : PruneNode) : PruneNode :=
  OneBooleanDistributeToORofANDs node

/-- Replace the stored upper-bound constant when the new one compares strictly
smaller (`PerformValueCompare(new, stored) < 0`). -/
def minUpdate (cur : Option PConst) (c : PConst) : Option PConst :=
  match cur with
  | Option.none => some c
  | some d => if c.value < d.value then some c else some d

/-- Replace the stored lower-bound constant when the new one compares strictly
larger (`PerformValueCompare(new, stored) > 0`). -/
def maxUpdate (cur : Option PConst) (c : PConst) : Option PConst :=
  match cur with
  | Option.none => some c
  | some d => if c.value > d.value then some c else some d

/-- The `BTEqualStrategyNumber` case of `AddPartitionKeyRestrictionToInstance`:
the first equality constant is stored; a later one with a different value marks
the instance as never evaluating to true. -/
def eqUpdate (p : PruningInstance) (c : PConst) : PruningInstance :=
  match p.equalConsts with
  | Option.none => { p with equalConsts := some c }
  | some d => if c.value ≠ d.value then { p with evaluatesToFalse := true } else p

/-- One iteration of the btree-interpretation loop in
`AddPartitionKeyRestrictionToInstance`; the `Bool` component is `matchedOp`. -/
def applyStrategy (c : PConst) (pm : PruningInstance × Bool) (s : Strategy) :
    PruningInstance × Bool :=
  let p := pm.1
  match s with
  | .lt => ({ p with lessConsts := minUpdate p.lessConsts c }, true)
  | .le => ({ p with lessEqualConsts := minUpdate p.lessEqualConsts c }, true)
  | .eq => (eqUpdate p c, true)
  | .ge => ({ p with greaterEqualConsts := maxUpdate p.greaterEqualConsts c }, true)
  | .gt => ({ p with greaterConsts := maxUpdate p.greaterConsts c }, true)
  | .ne => (p, false)

/-- `AddPartitionKeyRestrictionToInstance`. -/
def AddPartitionKeyRestrictionToInstance (node : PgNode) (interp : List Strategy)
    (c : PConst) (prune : PruningInstance) : PruningInstance :=
  let pm := interp.foldl (applyStrategy c) (prune, false)
  if pm.2 then { pm.1 with hasValidConstraint := true }
  else { pm.1 with otherRestrictions := pm.1.otherRestrictions ++ [node] }

/-- `AddHashRestrictionToInstance`: every `BTGreaterEqualStrategyNumber`
interpretation stores the pre-hashed constant (the `Assert(!hashedEqualConsts)`
is compiled out, so a later restriction simply overwrites). -/
def AddHashRestrictionToInstance (interp : List Strategy) (c : PConst)
    (prune : PruningInstance) : PruningInstance :=
  interp.foldl
    (fun p s =>
      if s = Strategy.ge then
        { p with hashedEqualConsts := some c, hasValidConstraint := true }
      else p)
    prune

/-- `AddSAOPartitionKeyRestrictionToInstance2`: for a valid
`partcol = ANY(array)` restriction, each array element is appended to
`saoEqualConsts` and marks the constraint valid; otherwise the instance is
only registered (a no-op here because `HandleConditionNode` has already set
`addedToPruningInstances`). -/
def AddSAOPartitionKeyRestrictionToInstance2 (pc : Int) (eqOp : Bool)
    (lhs : POperand) (arr : SaoArray) (prune : PruningInstance) : PruningInstance :=
  if eqOp &&
      (match lhs with
       | .var a => decide (a = pc)
       | _ => false) &&
      (match arr with
       | .notConst => false
       | _ => true) then
    match arr with
    | .nullConst => prune
    | .arrayConst elems =>
      elems.foldl
        (fun p e =>
          { p with saoEqualConsts := p.saoEqualConsts ++ [e], hasValidConstraint := true })
        prune
    | .notConst => prune
  else prune

/-- `HandleConditionNode`: registers the instance (sets
`addedToPruningInstances`) and dispatches on the condition's node type. -/
def HandleConditionNode (pc : Int) (node : PgNode) (prune : PruningInstance) :
    PruningInstance :=
  let prune := { prune with addedToPruningInstances := true }
  match node with
  | .opExpr interp args =>
    (match dissectOpArgs args with
     | some (c, a) =>
       if a = pc then
         AddPartitionKeyRestrictionToInstance (PgNode.opExpr interp args) interp c prune
       else if a = reservedHashedColumnId then AddHashRestrictionToInstance interp c prune
       else prune
     | Option.none => prune)
  | .saoExpr eqOp lhs arr => AddSAOPartitionKeyRestrictionToInstance2 pc eqOp lhs arr prune
  | _ => prune

/-- The condition fold of one `AND` node in `PrunableExpressionsWalker2`: every
constraint of every wrapper is fed to `HandleConditionNode` in order. -/
def foldBranchConditions (pc : Int) (conds : List ConditionWrapper)
    (p : PruningInstance) : PruningInstance :=
  conds.foldl
    (fun p w => w.validConstraints.foldl (fun p n => HandleConditionNode pc n p) p) p

mutual

/-- `PrunableExpressionsWalker2`: produces `context->pruningInstances` in
append order.  For an `AND` node the children are walked first; then, if the
node carries an unclassifiable-condition marker and no valid condition, a
constraint-less instance is emitted; if it carries a valid condition, a fresh
instance is built by folding all conditions. -/
def PrunableExpressionsWalker2 (pc : Int) : PruneNode → List PruningInstance
  | .mk BoolOp.and bools conds =>
    let childInsts := walker2List pc bools
    let validW := (FindValidConditionWrapper conds).isSome
    let invalidW := (FindInvalidConditionWrapper conds).isSome
    if invalidW ∧ ¬validW then
      childInsts ++
        [{ emptyInstance with
            addedToPruningInstances := true
            isPartial := false
            hasValidConstraint := false }]
    else if validW then
      childInsts ++
        [foldBranchConditions pc conds
          { emptyInstance with addedToPruningInstances := false, isPartial := false }]
    else childInsts
  | .mk BoolOp.or bools _ => walker2List pc bools

def walker2List (pc : Int) : List PruneNode → List PruningInstance
  | [] => []
  | n :: ns => PrunableExpressionsWalker2 pc n ++ walker2List pc ns

end

/-- The normalization pipeline of `PruneShards`: build the prune tree, pull up
redundant boolean nodes, separate `OR` conditions, distribute to an OR of ANDs,
then extract the pruning instances. -/
def PrunableInstances (pc : Int) (whereClauseList : List PgNode) :
    List PruningInstance :=
  let t0 := BuildPruneTree pc whereClauseList
  let t1 := PullUpBooleanOps t0
  let t2 := SeparateOrConditionsFromBools t1
  let t3 := BooleanDistributeToORofANDs t2
  PrunableExpressionsWalker2 pc t3

/-- Modelled from the spec: `FindShardInterval` (shardinterval_utils.c, which is
not under src/).  Per spec section 4.4, strategies 1 and 2, it looks up the
single shard interval whose range contains the search value, where for a
hash-partitioned table the search value is the hash of the given value; the
binary search over the sorted non-overlapping interval array is modelled as a
linear search for the first containing interval (boundaries are present for
hash- and range-distributed tables). -/
def FindShardInterval (v : Int) (ce : CacheEntry) : Option ShardInterval :=
  let key := if ce.partitionMethod = PartitionMethod.byHash then ce.hashFn v else v
  ce.sortedShardIntervalArray.find?
    (fun s => decide (s.minValue ≤ key) && decide (key ≤ s.maxValue))

/-- Modelled from the spec: `FindShardIntervalIndex` (shardinterval_utils.c, not
under src/).  Index form of the same lookup, applied to an already-hashed value
(spec section 4.4, strategy 1); `Option.none` is `INVALID_SHARD_INDEX`. -/
def FindShardIntervalIndex (hashedValue : Int) (ce : CacheEntry) : Option Nat :=
  ce.sortedShardIntervalArray.findIdx?
    (fun s => decide (s.minValue ≤ hashedValue) && decide (hashedValue ≤ s.maxValue))

/-- The binary-search loop of `LowerShardBoundary`: `Sum.inl mid` is the
`return middleIndex` inside the loop, `Sum.inr lo` is falling out of the loop
with `lowerBoundIndex == upperBoundIndex == lo`.  The loop narrows the range
`[lo, hi)` by at least one slot per iteration, so running it with
`fuel = hi - lo` initial iterations is exact: when the fuel hits zero the
range is already empty and the loop would exit with `lo` anyway. -/
def lowerSearch (v : Int) (shards : List ShardInterval) (includeMax : Bool) :
    Nat → Nat → Nat → Nat ⊕ Nat
  | 0, lo, _ => Sum.inr lo
  | fuel + 1, lo, hi =>
    if lo < hi then
      let mid := lo + (hi - lo) / 2
      let s := shards.getD mid dfltShard
      if v < s.minValue then lowerSearch v shards includeMax fuel lo mid
      else if (v = s.maxValue ∧ includeMax = false) ∨ s.maxValue < v then
        lowerSearch v shards includeMax fuel (mid + 1) hi
      else Sum.inl mid
    else Sum.inr lo

/-- `LowerShardBoundary`; `Option.none` is `INVALID_SHARD_INDEX`. -/
def LowerShardBoundary (v : Int) (shards : List ShardInterval) (includeMax : Bool) :
    Option Nat :=
  match lowerSearch v shards includeMax shards.length 0 shards.length with
  | Sum.inl mid => some mid
  | Sum.inr b =>
    if b = 0 then some 0
    else if b = shards.length then Option.none
    else some (b + 1)

/-- The binary-search loop of `UpperShardBoundary`, with the same exact
fuel as `lowerSearch`. -/
def upperSearch (v : Int) (shards : List ShardInterval) (includeMin : Bool) :
    Nat → Nat → Nat → Nat ⊕ Nat
  | 0, lo, _ => Sum.inr lo
  | fuel + 1, lo, hi =>
    if lo < hi then
      let mid := lo + (hi - lo) / 2
      let s := shards.getD mid dfltShard
      if (v = s.minValue ∧ includeMin = false) ∨ v < s.minValue then
        upperSearch v shards includeMin fuel lo mid
      else if s.maxValue < v then upperSearch v shards includeMin fuel (mid + 1) hi
      else Sum.inl mid
    else Sum.inr lo

/-- `UpperShardBoundary`; `Option.none` is `INVALID_SHARD_INDEX`. -/
def UpperShardBoundary (v : Int) (shards : List ShardInterval) (includeMin : Bool) :
    Option Nat :=
  match upperSearch v shards includeMin shards.length 0 shards.length with
  | Sum.inl mid => some mid
  | Sum.inr b =>
    if b = shards.length then some (shards.length - 1)
    else if b = 0 then Option.none
    else some (b - 1)

/-- `PruneWithBoundaries`. -/
def PruneWithBoundaries (ce : CacheEntry) (prune : PruningInstance) :
    List ShardInterval :=
  let shards := ce.sortedShardIntervalArray
  let shardCount := shards.length
  let lower0 : Bool × Int × Bool :=
    match prune.greaterEqualConsts with
    | some c => (true, c.value, true)
    | Option.none => (false, 0, false)
  let lower1 : Bool × Int × Bool :=
    match prune.greaterConsts with
    | some c =>
      if lower0.1 = false ∨ c.value ≥ lower0.2.1 then (true, c.value, false) else lower0
    | Option.none => lower0
  let upper0 : Bool × Int × Bool :=
    match prune.lessEqualConsts with
    | some c => (true, c.value, true)
    | Option.none => (false, 0, false)
  let upper1 : Bool × Int × Bool :=
    match prune.lessConsts with
    | some c =>
      if upper0.1 = false ∨ c.value ≤ upper0.2.1 then (true, c.value, false) else upper0
    | Option.none => upper0
  let lowerBoundIdx : Option Nat :=
    if lower1.1 then LowerShardBoundary lower1.2.1 shards lower1.2.2 else some 0
  let upperBoundIdx : Option Nat :=
    if upper1.1 then UpperShardBoundary upper1.2.1 shards upper1.2.2
    else some (shardCount - 1)
  match lowerBoundIdx, upperBoundIdx with
  | some lo, some hi => (List.range (hi + 1 - lo)).map (fun i => shards.getD (lo + i) dfltShard)
  | _, _ => []

/-- `ExhaustivePruneOne`: `true` when the interval is pruned away. -/
def ExhaustivePruneOne (cur : ShardInterval) (prune : PruningInstance) : Bool :=
  if !cur.minValueExists || !cur.maxValueExists then false
  else
    (match prune.equalConsts with
     | some c => decide (c.value < cur.minValue) || decide (cur.maxValue < c.value)
     | Option.none => false) ||
    (prune.saoEqualConsts.any
      (fun c => decide (c.value < cur.minValue) || decide (cur.maxValue < c.value))) ||
    (match prune.greaterEqualConsts with
     | some c => decide (cur.maxValue < c.value)
     | Option.none => false) ||
    (match prune.greaterConsts with
     | some c => decide (cur.maxValue ≤ c.value)
     | Option.none => false) ||
    (match prune.lessEqualConsts with
     | some c => decide (cur.minValue > c.value)
     | Option.none => false) ||
    (match prune.lessConsts with
     | some c => decide (cur.minValue ≥ c.value)
     | Option.none => false)

/-- `ExhaustivePrune`. -/
def ExhaustivePrune (ce : CacheEntry) (prune : PruningInstance) : List ShardInterval :=
  ce.sortedShardIntervalArray.filter (fun cur => !ExhaustivePruneOne cur prune)

/-- Final stage of `PruneOne`: single-shard exhaustive recheck for non-hash
tables when earlier stages produced candidates, otherwise boundary pruning or
the exhaustive scan. -/
def pruneOneRest (ce : CacheEntry) (prune : PruningInstance)
    (acc : List ShardInterval) : List ShardInterval :=
  if ¬acc.isEmpty then
    if acc.any (fun si =>
        decide (ce.partitionMethod ≠ PartitionMethod.byHash) && ExhaustivePruneOne si prune)
    then []
    else acc
  else if ¬ce.hasOverlappingShardInterval ∧
      (prune.greaterConsts.isSome ∨ prune.greaterEqualConsts.isSome ∨
        prune.lessConsts.isSome ∨ prune.lessEqualConsts.isSome) then
    PruneWithBoundaries ce prune
  else ExhaustivePrune ce prune

/-- The `hashedEqualConsts` stage of `PruneOne`: direct lookup of the
pre-hashed value, intersected by shard id with the candidates from the
equality stages when those produced any. -/
def pruneOneHashed (ce : CacheEntry) (prune : PruningInstance)
    (acc : List ShardInterval) : List ShardInterval :=
  match prune.hashedEqualConsts with
  | some hc =>
    (match FindShardIntervalIndex hc.value ce with
     | Option.none => []
     | some idx =>
       let hs := ce.sortedShardIntervalArray.getD idx dfltShard
       if acc.isEmpty then [hs]
       else acc.foldl (fun l si => if hs.shardId = si.shardId then l ++ [hs] else l) [])
  | Option.none => pruneOneRest ce prune acc

/-- The `saoEqualConsts` stage of `PruneOne`: per-value lookup unioned by
identity; if afterwards no candidate survives, the branch yields nothing. -/
def pruneOneSao (ce : CacheEntry) (prune : PruningInstance)
    (acc : List ShardInterval) : List ShardInterval :=
  if ¬prune.saoEqualConsts.isEmpty ∧ ¬ce.hasOverlappingShardInterval then
    let acc2 := prune.saoEqualConsts.foldl
      (fun l c =>
        match FindShardInterval c.value ce with
        | some si => listAppendUniquePtr l si
        | Option.none => l)
      acc
    if acc2.isEmpty then [] else pruneOneHashed ce prune acc2
  else pruneOneHashed ce prune acc

/-- `PruneOne`. -/
def PruneOne (ce : CacheEntry) (prune : PruningInstance) : List ShardInterval :=
  if prune.evaluatesToFalse then []
  else
    match prune.equalConsts with
    | some c =>
      if ¬ce.hasOverlappingShardInterval then
        match FindShardInterval c.value ce with
        | Option.none => []
        | some si => pruneOneSao ce prune [si]
      else pruneOneSao ce prune []
    | Option.none => pruneOneSao ce prune []

/-- `ContainsFalseClause`: a top-level conjunct that is a `Const` of boolean
type whose datum value is false; the null flag is not inspected. -/
def ContainsFalseClause (whereClauseList : List PgNode) : Bool :=
  whereClauseList.any
    (fun n =>
      match n with
      | .constExpr c => decide (c.typ = PType.boolT) && decide (c.value = 0)
      | _ => false)

/-- `ShardArrayToList`. -/
def ShardArrayToList (shards : List ShardInterval) : List ShardInterval :=
  shards

/-- `DeepCopyShardIntervalList`: copying has no observable effect on values. -/
def DeepCopyShardIntervalList (l : List ShardInterval) : List ShardInterval :=
  l.map (fun si => si)

/-- The mutable locals of the instance loop in `PruneShards`. -/
structure LoopState where
  prunedList : List ShardInterval
  foundRestriction : Bool
  foundPartitionColumnValue : Bool
  singlePartitionValueConst : Option PConst

/-- One update of the single-partition-value tracking with one equality
constant (shared by the `equalConsts` and `saoEqualConsts` branches). -/
def updateSinglePV (st : LoopState) (c : PConst) : LoopState :=
  if ¬st.foundPartitionColumnValue then
    { st with singlePartitionValueConst := some c, foundPartitionColumnValue := true }
  else
    match st.singlePartitionValueConst with
    | Option.none => st
    | some d => if ¬(c = d) then { st with singlePartitionValueConst := Option.none } else st

/-- The partition-value tracking part of the hash-table block in `PruneShards`
(run only when the caller passed a non-NULL `partitionValueConst`). -/
def hashBlockPV (wantPV : Bool) (prune : PruningInstance) (st : LoopState) : LoopState :=
  if wantPV ∧ prune.equalConsts.isSome then
    match prune.equalConsts with
    | some c => updateSinglePV st c
    | Option.none => st
  else if wantPV ∧ ¬prune.saoEqualConsts.isEmpty then
    prune.saoEqualConsts.foldl updateSinglePV st
  else st

/-- The instance loop of `PruneShards`.  Partial instances are skipped; an
instance without a valid constraint, or (for a hash table) a non-false instance
without any equality-class constraint, breaks out of the loop with
`foundRestriction = false`. -/
def mainLoop (ce : CacheEntry) (wantPV : Bool) :
    List PruningInstance → LoopState → LoopState
  | [], st => st
  | prune :: rest, st =>
    if prune.isPartial then mainLoop ce wantPV rest st
    else if ¬prune.hasValidConstraint then { st with foundRestriction := false }
    else if ce.partitionMethod = PartitionMethod.byHash ∧ ¬prune.evaluatesToFalse ∧
        prune.equalConsts = Option.none ∧ prune.saoEqualConsts = [] ∧
        prune.hashedEqualConsts = Option.none then
      { st with foundRestriction := false }
    else
      let st1 := if ce.partitionMethod = PartitionMethod.byHash then hashBlockPV wantPV prune st
                 else st
      let pruneOneList := PruneOne ce prune
      let newPruned :=
        if ¬st1.prunedList.isEmpty then listUnionPtr st1.prunedList pruneOneList
        else pruneOneList
      mainLoop ce wantPV rest
        { st1 with prunedList := newPruned, foundRestriction := true }

/-- `PruneShards`.  The result pairs the pruned shard list with the single
partition value written through `partitionValueConst`; `wantPV` models whether
the caller passed a non-NULL pointer (on the early-return paths nothing is
written and the caller-initialized NULL remains, modelled as `Option.none`).
The two `ereport(ERROR)` calls for missing comparators are the `Except.error`
results. -/
def PruneShards (ce : CacheEntry) (whereClauseList : List PgNode) (wantPV : Bool) :
    Except String (List ShardInterval × Option PConst) :=
  if ce.sortedShardIntervalArray.isEmpty then Except.ok ([], Option.none)
  else if ContainsFalseClause whereClauseList then Except.ok ([], Option.none)
  else if ce.partitionMethod = PartitionMethod.byNone then
    Except.ok
      (DeepCopyShardIntervalList (ShardArrayToList ce.sortedShardIntervalArray), Option.none)
  else if ¬ce.hasShardIntervalCompareFunction then
    Except.error "shard pruning not possible without a shard interval comparator"
  else if ¬ce.hasShardColumnCompareFunction then
    Except.error "shard pruning not possible without a partition column comparator"
  else
    let insts := PrunableInstances ce.partitionColumn whereClauseList
    let st := mainLoop ce wantPV insts ⟨[], false, false, Option.none⟩
    let pruned :=
      if ¬st.foundRestriction then ShardArrayToList ce.sortedShardIntervalArray
      else st.prunedList
    let pv := if wantPV then st.singlePartitionValueConst else Option.none
    Except.ok (DeepCopyShardIntervalList pruned, pv)

/-- The shard list of a successful `PruneShards` run. -/
def PruneShardsList (ce : CacheEntry) (whereClauseList : List PgNode) (wantPV : Bool) :
    List ShardInterval :=
  match PruneShards ce whereClauseList wantPV with
  | Except.ok res => res.1
  | Except.error _ => []

/-! Concrete tables used to evaluate the code at specific inputs: a
range-distributed table with the adjacent shard intervals `[1,1000]` and
`[1001,2000]` of the spec's boundary example, sorted and non-overlapping,
with both comparators present. -/

def demoShard1 : ShardInterval := ⟨101, 1, 1000, true, true⟩

def demoShard2 : ShardInterval := ⟨102, 1001, 2000, true, true⟩

def demoTable : CacheEntry :=
  ⟨PartitionMethod.byRange, 1, [demoShard1, demoShard2], false, true, true, fun v => v⟩

/-- A `partition-column <op> constant` comparison on partition column `pc`
whose operator has the given btree interpretations. -/
def mkCmp (interp : List Strategy) (pc : Int) (v : Int) : PgNode :=
  PgNode.opExpr interp [POperand.var pc, POperand.const ⟨PType.intT, v, false⟩]

/-- The pruning instance a single `col = v` equality condition folds into. -/
def instEq (v : Int) : PruningInstance :=
  { emptyInstance with
      hasValidConstraint := true
      equalConsts := some ⟨PType.intT, v, false⟩
      addedToPruningInstances := true }


/-- Claim-side semantic apparatus (not a translation of repository code):
truth of one condition wrapper under a valuation `nu` of the condition nodes —
the conjunction of its recorded constraints.  An empty wrapper (the marker of
an unclassifiable condition) denotes no recorded information and evaluates to
true, the over-approximating reading used to state soundness of the tree
rewrites. -/
def wrapperSat (nu : PgNode → Bool) (w : ConditionWrapper) : Bool :=
  w.validConstraints.all nu

mutual

/-- Claim-side semantics of a `PruneNode` under a valuation of conditions. -/
def PruneNode.sat (nu : PgNode → Bool) : PruneNode → Bool
  | .mk BoolOp.and bools conds => satAll nu bools && conds.all (wrapperSat nu)
  | .mk BoolOp.or bools conds => satAny nu bools || conds.any (wrapperSat nu)

def satAll (nu : PgNode → Bool) : List PruneNode → Bool
  | [] => true
  | n :: ns => PruneNode.sat nu n && satAll nu ns

def satAny (nu : PgNode → Bool) : List PruneNode → Bool
  | [] => false
  | n :: ns => PruneNode.sat nu n || satAny nu ns

end

/-- A condition wrapper holding the single classified condition `col = i`. -/
def c3w (i : Int) : ConditionWrapper := ⟨[mkCmp [Strategy.eq] 1 i]⟩

/-- An `AND` node in canonical separated form with one own condition and two
distinct `OR` children of two alternatives each:
`w0 AND (w1 OR w2) AND (w3 OR w4)`. -/
def c3node : PruneNode :=
  PruneNode.mk BoolOp.and
    [PruneNode.mk BoolOp.or
        [PruneNode.mk BoolOp.and [] [c3w 1], PruneNode.mk BoolOp.and [] [c3w 2]] [],
      PruneNode.mk BoolOp.or
        [PruneNode.mk BoolOp.and [] [c3w 3], PruneNode.mk BoolOp.and [] [c3w 4]] []]
    [c3w 0]


/-- One step of folding a classified partition-key condition (operator node,
btree interpretations, constant) into an instance. -/
def addStep (p : PruningInstance) (t : PgNode × List Strategy × PConst) :
    PruningInstance :=
  AddPartitionKeyRestrictionToInstance t.1 t.2.1 t.2.2 p

/-- Folding a list of classified partition-key conditions of one AND-branch
into its constraint bag. -/
def foldPartitionKeyRestrictions (conds : List (PgNode × List Strategy × PConst))
    (p : PruningInstance) : PruningInstance :=
  conds.foldl addStep p

/-- Claim-side projection: the datum value stored in an optional constant. -/
def valOf (o : Option PConst) : Option Int := o.map PConst.value

/-- The update performed on the (equality constant, always-false flag) pair by
one equality interpretation of `AddPartitionKeyRestrictionToInstance`. -/
def epUpd (ef : Option PConst × Bool) (c : PConst) : Option PConst × Bool :=
  match ef.1 with
  | Option.none => (some c, ef.2)
  | some d => if c.value ≠ d.value then (ef.1, true) else ef

/-- Claim-side equivalence on pruning instances: equal always-false flags and
value-equal constants in every field `PruneOne` reads (the stored equality
constant is only constrained while the instance is not always-false). -/
def instRel (p q : PruningInstance) : Prop :=
  p.evaluatesToFalse = q.evaluatesToFalse ∧
  (p.evaluatesToFalse = false → valOf p.equalConsts = valOf q.equalConsts) ∧
  valOf p.lessConsts = valOf q.lessConsts ∧
  valOf p.lessEqualConsts = valOf q.lessEqualConsts ∧
  valOf p.greaterEqualConsts = valOf q.greaterEqualConsts ∧
  valOf p.greaterConsts = valOf q.greaterConsts ∧
  p.saoEqualConsts = q.saoEqualConsts ∧
  p.hashedEqualConsts = q.hashedEqualConsts

/-- The equivalence on (equal constant, always-false) pairs. -/
def relEP (a b : Option PConst × Bool) : Prop :=
  a.2 = b.2 ∧ (a.2 = false → valOf a.1 = valOf b.1)

/-!  Theorems settling the claims. -/

/-- C1: refuted by evaluation.  On the demo range table with shards `[1,1000]`
and `[1001,2000]`, the single predicate `col > 1000` prunes to the EMPTY shard
list, although the row `col = 1500` satisfies the predicate and lies inside
shard `[1001,2000]`: a shard whose interval contains a row satisfying the
predicate is not a member of the returned list, so the result is not a
superset of the exactly-matching shard set.  (`LowerShardBoundary` falls out
of its binary search with `lowerBoundIndex = 1` and returns
`lowerBoundIndex + 1 = 2`, past the matching shard at index 1.) -/
theorem c1_soundness_fails_eval :
    PruneShards demoTable [mkCmp [Strategy.gt] 1 1000] false = Except.ok ([], Option.none) ∧
    (1000 : Int) < 1500 ∧
    demoShard2 ∈ demoTable.sortedShardIntervalArray ∧
    demoShard2.minValue ≤ 1500 ∧ (1500 : Int) ≤ demoShard2.maxValue := by
  refine ⟨rfl, by norm_num, ?_, by norm_num [demoShard2], by norm_num [demoShard2]⟩
  simp [demoTable]

/-- C2: the two equality parts of the claim hold, but the range part fails.
On the demo table, `col = 1000` prunes to exactly the first shard and
`col = 1001` to exactly the second, yet `col > 1000 AND col <= 1001` prunes to
the empty list instead of the claimed second shard (the row `col = 1001`
satisfies the conjunction and lies in `[1001,2000]`). -/
theorem c2_boundary_inclusiveness_eval :
    PruneShards demoTable [mkCmp [Strategy.eq] 1 1000] false =
      Except.ok ([demoShard1], Option.none) ∧
    PruneShards demoTable [mkCmp [Strategy.eq] 1 1001] false =
      Except.ok ([demoShard2], Option.none) ∧
    PruneShards demoTable [mkCmp [Strategy.gt] 1 1000, mkCmp [Strategy.le] 1 1001] false =
      Except.ok ([], Option.none) ∧
    ((1000 : Int) < 1001 ∧ (1001 : Int) ≤ 1001 ∧
      demoShard2.minValue ≤ 1001 ∧ (1001 : Int) ≤ demoShard2.maxValue) := by
  exact ⟨rfl, rfl, rfl, by norm_num [demoShard2]⟩

/-- C8: a literal boolean-false constant among the top-level conjuncts makes
`PruneShards` return the empty list immediately, for every table with at least
one shard (the `ContainsFalseClause` test runs before everything else except
the zero-shard check, which also returns the empty list). -/
theorem c8_false_clause_short_circuit (ce : CacheEntry) (wcl : List PgNode) (w : Bool)
    (hfalse : ContainsFalseClause wcl = true)
    (hshards : 1 ≤ ce.sortedShardIntervalArray.length) :
    PruneShards ce wcl w = Except.ok ([], Option.none) := by
  unfold PruneShards
  cases h : ce.sortedShardIntervalArray.isEmpty <;> simp [h, hfalse]

/-- C8 witness: the demo table with two shards and the clause list
`[false::bool]`. -/
theorem c8_false_clause_short_circuit_witness :
    ContainsFalseClause [PgNode.constExpr ⟨PType.boolT, 0, false⟩] = true ∧
    1 ≤ demoTable.sortedShardIntervalArray.length ∧
    PruneShards demoTable [PgNode.constExpr ⟨PType.boolT, 0, false⟩] false =
      Except.ok ([], Option.none) :=
  ⟨rfl, by simp [demoTable],
    c8_false_clause_short_circuit demoTable _ false rfl (by simp [demoTable])⟩

/-- C9: `ContainsFalseClause` reads only the constant's type and datum value,
never its null flag, so a NULL boolean constant conjunct (whose datum value is
0) is treated as false and makes `PruneShards` return the empty list. -/
theorem c9_null_bool_const_treated_as_false (ce : CacheEntry) (wcl : List PgNode)
    (w : Bool) (c : PConst) (htyp : c.typ = PType.boolT) (hval : c.value = 0)
    (hnull : c.isNull = true) (hmem : PgNode.constExpr c ∈ wcl) :
    ContainsFalseClause wcl = true ∧
    PruneShards ce wcl w = Except.ok ([], Option.none) ∧
    (∀ (t : PType) (v : Int) (b1 b2 : Bool),
      ContainsFalseClause [PgNode.constExpr ⟨t, v, b1⟩] =
        ContainsFalseClause [PgNode.constExpr ⟨t, v, b2⟩]) := by
  have hfalse : ContainsFalseClause wcl = true := by
    refine List.any_eq_true.mpr ⟨PgNode.constExpr c, hmem, ?_⟩
    simp [htyp, hval]
  refine ⟨hfalse, ?_, fun t v b1 b2 => rfl⟩
  unfold PruneShards
  cases h : ce.sortedShardIntervalArray.isEmpty <;> simp [h, hfalse]

/-- C9 witness: the NULL boolean constant (type `bool`, datum 0, null flag set)
as the only conjunct, on the demo table. -/
theorem c9_null_bool_const_treated_as_false_witness :
    (⟨PType.boolT, 0, true⟩ : PConst).isNull = true ∧
    ContainsFalseClause [PgNode.constExpr ⟨PType.boolT, 0, true⟩] = true ∧
    PruneShards demoTable [PgNode.constExpr ⟨PType.boolT, 0, true⟩] false =
      Except.ok ([], Option.none) :=
  ⟨rfl,
    (c9_null_bool_const_treated_as_false demoTable _ false _ rfl rfl rfl
      (List.mem_singleton.mpr rfl)).1,
    (c9_null_bool_const_treated_as_false demoTable _ false _ rfl rfl rfl
      (List.mem_singleton.mpr rfl)).2.1⟩

/-- The instance loop never touches the tracked single partition value for a
table that is not hash-partitioned. -/
theorem mainLoop_singlePV_of_not_hash (ce : CacheEntry) (w : Bool)
    (hm : ce.partitionMethod ≠ PartitionMethod.byHash) :
    ∀ (l : List PruningInstance) (st : LoopState),
      (mainLoop ce w l st).singlePartitionValueConst = st.singlePartitionValueConst := by
  intro l
  induction l with
  | nil => intro st; rfl
  | cons p rest ih =>
    intro st
    simp only [mainLoop]
    split
    · exact ih st
    · split
      · rfl
      · split
        · rfl
        · exact ih _


/-- C10: `PruneShards` reports a partition value constant only for
hash-partitioned tables; for range- and append-partitioned tables every
successful run reports NULL. -/
theorem c10_partition_value_null_unless_hash (ce : CacheEntry) (wcl : List PgNode)
    (w : Bool)
    (hm : ce.partitionMethod = PartitionMethod.byRange ∨
      ce.partitionMethod = PartitionMethod.byAppend)
    (res : List ShardInterval × Option PConst)
    (hres : PruneShards ce wcl w = Except.ok res) :
    res.2 = Option.none := by
  have hnh : ce.partitionMethod ≠ PartitionMethod.byHash := by
    rcases hm with h | h <;> simp [h]
  unfold PruneShards at hres
  split at hres
  · cases hres; rfl
  · split at hres
    · cases hres; rfl
    · split at hres
      · cases hres; rfl
      · split at hres
        · cases hres
        · split at hres
          · cases hres
          · cases hres
            simp only []
            rw [mainLoop_singlePV_of_not_hash ce w hnh]
            cases w <;> rfl

/-- C10 witness: on the demo range table a predicate that pins the partition
column to the single constant 5 still reports no partition value. -/
theorem c10_partition_value_null_unless_hash_witness :
    PruneShards demoTable [mkCmp [Strategy.eq] 1 5] true =
      Except.ok ([demoShard1], Option.none) ∧
    (demoTable.partitionMethod = PartitionMethod.byRange ∨
      demoTable.partitionMethod = PartitionMethod.byAppend) ∧
    (([demoShard1], (Option.none : Option PConst))).2 = Option.none :=
  ⟨rfl, Or.inl rfl,
    c10_partition_value_null_unless_hash demoTable [mkCmp [Strategy.eq] 1 5] true
      (Or.inl rfl) ([demoShard1], Option.none) rfl⟩

/-- The pruning instance produced for `col = v1 AND col = v2` with `v1 ≠ v2`:
a single branch marked `evaluatesToFalse`. -/
theorem instances_of_conflicting_equalities (pc v1 v2 : Int) (h : v1 ≠ v2) :
    PrunableInstances pc [mkCmp [Strategy.eq] pc v1, mkCmp [Strategy.eq] pc v2] =
      [{ emptyInstance with
          hasValidConstraint := true
          evaluatesToFalse := true
          equalConsts := some ⟨PType.intT, v1, false⟩
          addedToPruningInstances := true }] := by
  simp [PrunableInstances, BuildPruneTree, buildSteps, buildStep, addCondition,
    IsValidConditionNode, dissectOpArgs, IsValidPartitionKeyRestriction,
    AppendConstraint, FindValidConditionWrapper, FindInvalidConditionWrapper,
    appendToValidWrapper, PullUpBooleanOps, pullUpList,
    SeparateOrConditionsFromBools, separateOrList, BooleanDistributeToORofANDs,
    OneBooleanDistributeToORofANDs, distributeOrChildren, distributeAndLoop,
    MakeORofAnds, PrunableExpressionsWalker2, walker2List, foldBranchConditions,
    HandleConditionNode, AddPartitionKeyRestrictionToInstance, applyStrategy,
    eqUpdate, mkCmp, emptyInstance, h.symm]

/-- C5: for every partitioned table with its comparators, a conjunction
equating the partition column to two different constants marks its single
branch always-false and `PruneShards` returns the empty shard list as a
success, not an error. -/
theorem c5_equality_conflict_empty_not_error (ce : CacheEntry) (w : Bool)
    (v1 v2 : Int) (hne : v1 ≠ v2)
    (hm : ce.partitionMethod ≠ PartitionMethod.byNone)
    (h1 : ce.hasShardIntervalCompareFunction = true)
    (h2 : ce.hasShardColumnCompareFunction = true) :
    (PruneShards ce
        [mkCmp [Strategy.eq] ce.partitionColumn v1,
          mkCmp [Strategy.eq] ce.partitionColumn v2] w).map Prod.fst =
      Except.ok [] ∧
    (PrunableInstances ce.partitionColumn
        [mkCmp [Strategy.eq] ce.partitionColumn v1,
          mkCmp [Strategy.eq] ce.partitionColumn v2]).map
        PruningInstance.evaluatesToFalse = [true] := by
  have hinst := instances_of_conflicting_equalities ce.partitionColumn v1 v2 hne
  refine ⟨?_, by rw [hinst]; rfl⟩
  unfold PruneShards
  cases hE : ce.sortedShardIntervalArray.isEmpty
  · rw [hinst]
    cases hmeth : ce.partitionMethod <;> cases w <;>
      simp [hE, hmeth, hm, h1, h2, ContainsFalseClause, mkCmp, mainLoop, hashBlockPV,
        updateSinglePV, PruneOne, emptyInstance, listUnionPtr, Except.map,
        DeepCopyShardIntervalList, ShardArrayToList] <;>
      simp [hmeth] at hm
  · simp [hE, Except.map]

/-- C5 witness: `col = 5 AND col = 7` on the demo range table. -/
theorem c5_equality_conflict_empty_not_error_witness :
    (5 : Int) ≠ 7 ∧ demoTable.partitionMethod ≠ PartitionMethod.byNone ∧
    (PruneShards demoTable
        [mkCmp [Strategy.eq] demoTable.partitionColumn 5,
          mkCmp [Strategy.eq] demoTable.partitionColumn 7] false).map Prod.fst =
      Except.ok [] :=
  ⟨by norm_num, by simp [demoTable],
    (c5_equality_conflict_empty_not_error demoTable false 5 7 (by norm_num)
      (by simp [demoTable]) rfl rfl).1⟩

/-- If some non-partial instance of the list has no valid constraint, the
instance loop ends with `foundRestriction = false`. -/
theorem mainLoop_foundRestriction_false (ce : CacheEntry) (w : Bool)
    (inst : PruningInstance) (hp : inst.isPartial = false)
    (hv : inst.hasValidConstraint = false) :
    ∀ (l : List PruningInstance) (st : LoopState), inst ∈ l →
      (mainLoop ce w l st).foundRestriction = false := by
  intro l
  induction l with
  | nil => intro st hmem; cases hmem
  | cons p rest ih =>
    intro st hmem
    rcases List.mem_cons.mp hmem with rfl | hmem
    · simp [mainLoop, hp, hv]
    · simp only [mainLoop]
      split
      · exact ih st hmem
      · split
        · rfl
        · split
          · rfl
          · exact ih _ hmem

/-- C7: if any non-partial branch of the normalized predicate carries no valid
constraint, `PruneShards` returns the full shard list, and the loop's result
does not depend on the instances after that branch (it breaks). -/
theorem c7_unconstrained_branch_forces_all_shards (ce : CacheEntry)
    (wcl : List PgNode) (w : Bool)
    (h1 : ce.hasShardIntervalCompareFunction = true)
    (h2 : ce.hasShardColumnCompareFunction = true)
    (hfalse : ContainsFalseClause wcl = false)
    (inst : PruningInstance)
    (hmem : inst ∈ PrunableInstances ce.partitionColumn wcl)
    (hp : inst.isPartial = false) (hv : inst.hasValidConstraint = false) :
    (PruneShards ce wcl w).map Prod.fst =
      Except.ok (DeepCopyShardIntervalList (ShardArrayToList ce.sortedShardIntervalArray)) ∧
    (∀ (st : LoopState) (rest rest' : List PruningInstance),
      mainLoop ce w (inst :: rest) st = mainLoop ce w (inst :: rest') st) := by
  constructor
  · unfold PruneShards
    cases hE : ce.sortedShardIntervalArray.isEmpty
    · cases hmeth : ce.partitionMethod <;>
        simp [hE, hmeth, hfalse, h1, h2, Except.map,
          mainLoop_foundRestriction_false ce w inst hp hv _ _ hmem]
    · have : ce.sortedShardIntervalArray = [] := by
        simpa [List.isEmpty_iff] using hE
      simp [hE, this, Except.map, DeepCopyShardIntervalList, ShardArrayToList]
  · intro st rest rest'
    simp [mainLoop, hp, hv]

/-- C7 witness: a single unclassifiable condition (a comparison between two
variables) on the demo table yields exactly one constraint-less instance and
the full shard list. -/
theorem c7_unconstrained_branch_forces_all_shards_witness :
    PrunableInstances demoTable.partitionColumn
        [PgNode.opExpr [Strategy.eq] [POperand.var 7, POperand.var 8]] =
      [{ emptyInstance with addedToPruningInstances := true }] ∧
    (PruneShards demoTable
        [PgNode.opExpr [Strategy.eq] [POperand.var 7, POperand.var 8]] false).map
        Prod.fst =
      Except.ok
        (DeepCopyShardIntervalList (ShardArrayToList demoTable.sortedShardIntervalArray)) :=
  ⟨rfl,
    (c7_unconstrained_branch_forces_all_shards demoTable
      [PgNode.opExpr [Strategy.eq] [POperand.var 7, POperand.var 8]] false rfl rfl rfl
      { emptyInstance with addedToPruningInstances := true }
      (List.mem_singleton.mpr rfl) rfl rfl).1⟩

theorem instEq_isPartial (v : Int) : (instEq v).isPartial = false := rfl

theorem instEq_hasValidConstraint (v : Int) : (instEq v).hasValidConstraint = true := rfl

theorem instEq_evaluatesToFalse (v : Int) : (instEq v).evaluatesToFalse = false := rfl

theorem instEq_equalConsts (v : Int) :
    (instEq v).equalConsts = some ⟨PType.intT, v, false⟩ := rfl

theorem instEq_saoEqualConsts (v : Int) : (instEq v).saoEqualConsts = [] := rfl

theorem instEq_hashedEqualConsts (v : Int) : (instEq v).hashedEqualConsts = Option.none := rfl

/-- The instances generated for the single predicate `a = 1 OR a = 2`. -/
theorem instances_of_or_two_eq (pc : Int) :
    PrunableInstances pc
        [PgNode.boolOr [mkCmp [Strategy.eq] pc 1, mkCmp [Strategy.eq] pc 2]] =
      [instEq 1, instEq 2] := by
  simp [PrunableInstances, BuildPruneTree, buildSteps, buildStep, addCondition,
    IsValidConditionNode, dissectOpArgs, IsValidPartitionKeyRestriction,
    AppendConstraint, FindValidConditionWrapper, FindInvalidConditionWrapper,
    appendToValidWrapper, PullUpBooleanOps, pullUpList,
    SeparateOrConditionsFromBools, separateOrList, BooleanDistributeToORofANDs,
    OneBooleanDistributeToORofANDs, distributeOrChildren, distributeAndLoop,
    MakeORofAnds, PrunableExpressionsWalker2, walker2List, foldBranchConditions,
    HandleConditionNode, AddPartitionKeyRestrictionToInstance, applyStrategy,
    eqUpdate, mkCmp, emptyInstance, instEq]

/-- The instance generated for a single `a = v` predicate. -/
theorem instances_of_single_eq (pc v : Int) :
    PrunableInstances pc [mkCmp [Strategy.eq] pc v] = [instEq v] := by
  simp [PrunableInstances, BuildPruneTree, buildSteps, buildStep, addCondition,
    IsValidConditionNode, dissectOpArgs, IsValidPartitionKeyRestriction,
    AppendConstraint, FindValidConditionWrapper, FindInvalidConditionWrapper,
    appendToValidWrapper, PullUpBooleanOps, pullUpList,
    SeparateOrConditionsFromBools, separateOrList, BooleanDistributeToORofANDs,
    OneBooleanDistributeToORofANDs, distributeOrChildren, distributeAndLoop,
    MakeORofAnds, PrunableExpressionsWalker2, walker2List, foldBranchConditions,
    HandleConditionNode, AddPartitionKeyRestrictionToInstance, applyStrategy,
    eqUpdate, mkCmp, emptyInstance, instEq]

/-- Membership in a `list_union_ptr` union. -/
theorem mem_listUnionPtr (x : ShardInterval) :
    ∀ (l2 l1 : List ShardInterval), x ∈ listUnionPtr l1 l2 ↔ x ∈ l1 ∨ x ∈ l2 := by
  intro l2
  induction l2 with
  | nil => intro l1; simp [listUnionPtr]
  | cons c rest ih =>
    intro l1
    have step : listUnionPtr l1 (c :: rest) =
        listUnionPtr (if l1.contains c then l1 else l1 ++ [c]) rest := rfl
    rw [step]
    by_cases hc : l1.contains c
    · rw [if_pos hc, ih]
      have hcm : c ∈ l1 := by simpa using hc
      constructor
      · rintro (h | h)
        · exact Or.inl h
        · exact Or.inr (List.mem_cons_of_mem _ h)
      · rintro (h | h)
        · exact Or.inl h
        · rcases List.mem_cons.mp h with rfl | h
          · exact Or.inl hcm
          · exact Or.inr h
    · rw [if_neg hc, ih]
      simp only [List.mem_append, List.mem_singleton, List.mem_cons]
      tauto

/-- Bounded existence over a `list_union_ptr` union. -/
theorem exists_mem_unionPtr (p : ShardInterval → Prop) (l1 l2 : List ShardInterval) :
    (∃ a ∈ listUnionPtr l1 l2, p a) ↔ (∃ a ∈ l1, p a) ∨ (∃ a ∈ l2, p a) := by
  constructor
  · rintro ⟨s, hs, hp⟩
    rcases (mem_listUnionPtr s l2 l1).mp hs with h | h
    · exact Or.inl ⟨s, h, hp⟩
    · exact Or.inr ⟨s, h, hp⟩
  · rintro (⟨s, hs, hp⟩ | ⟨s, hs, hp⟩)
    · exact ⟨s, (mem_listUnionPtr s l2 l1).mpr (Or.inl hs), hp⟩
    · exact ⟨s, (mem_listUnionPtr s l2 l1).mpr (Or.inr hs), hp⟩

/-- C4: for every table with its comparators, pruning with the single predicate
`a = 1 OR a = 2` on the partition column returns the same shard-id set as the
union of pruning with `a = 1` and with `a = 2`. -/
theorem c4_or_distribution_equals_union (ce : CacheEntry) (w : Bool)
    (h1 : ce.hasShardIntervalCompareFunction = true)
    (h2 : ce.hasShardColumnCompareFunction = true) (sid : Nat) :
    sid ∈ (PruneShardsList ce
        [PgNode.boolOr [mkCmp [Strategy.eq] ce.partitionColumn 1,
          mkCmp [Strategy.eq] ce.partitionColumn 2]] w).map ShardInterval.shardId ↔
      (sid ∈ (PruneShardsList ce [mkCmp [Strategy.eq] ce.partitionColumn 1] w).map
          ShardInterval.shardId ∨
        sid ∈ (PruneShardsList ce [mkCmp [Strategy.eq] ce.partitionColumn 2] w).map
          ShardInterval.shardId) := by
  have hor := instances_of_or_two_eq ce.partitionColumn
  have hs1 := instances_of_single_eq ce.partitionColumn 1
  have hs2 := instances_of_single_eq ce.partitionColumn 2
  unfold PruneShardsList PruneShards
  cases hE : ce.sortedShardIntervalArray.isEmpty
  · rw [hor, hs1, hs2]
    cases hmeth : ce.partitionMethod <;> cases w <;>
      simp only [hE, hmeth, h1, h2] <;>
      simp [hmeth, ContainsFalseClause, mkCmp, mainLoop, hashBlockPV,
        updateSinglePV, emptyInstance, DeepCopyShardIntervalList,
        instEq_isPartial, instEq_hasValidConstraint, instEq_evaluatesToFalse,
        instEq_equalConsts, instEq_saoEqualConsts, instEq_hashedEqualConsts] <;>
      by_cases hEmpty1 : PruneOne ce (instEq 1) = [] <;>
      simp [hEmpty1, exists_mem_unionPtr]
  · simp [hE]

/-- C4 witness: on the demo range table, shard id 101 (whose interval contains
both 1 and 2) satisfies the equivalence. -/
theorem c4_or_distribution_equals_union_witness :
    demoTable.hasShardIntervalCompareFunction = true ∧
    (101 ∈ (PruneShardsList demoTable
        [PgNode.boolOr [mkCmp [Strategy.eq] demoTable.partitionColumn 1,
          mkCmp [Strategy.eq] demoTable.partitionColumn 2]] false).map
        ShardInterval.shardId ↔
      (101 ∈ (PruneShardsList demoTable
          [mkCmp [Strategy.eq] demoTable.partitionColumn 1] false).map
          ShardInterval.shardId ∨
        101 ∈ (PruneShardsList demoTable
          [mkCmp [Strategy.eq] demoTable.partitionColumn 2] false).map
          ShardInterval.shardId)) :=
  ⟨rfl, c4_or_distribution_equals_union demoTable false rfl rfl 101⟩


/-- C3: counterexample.  The claim requires the distribution pass on
`w0 AND (w1 OR w2) AND (w3 OR w4)` to produce one AND-branch per combination
of one alternative per distinct OR child together with the node's own
condition — four branches carrying three conditions each.  The code instead
returns a flat OR holding only the last OR child's two singleton branches:
two branches of one condition each, the own condition `w0` and the first OR
child's alternatives dropped, and no branch containing any combination. -/
theorem c3_distribution_combination_counterexample :
    BooleanDistributeToORofANDs c3node =
      PruneNode.mk BoolOp.or
        [PruneNode.mk BoolOp.and [] [c3w 3], PruneNode.mk BoolOp.and [] [c3w 4]] [] ∧
    (BooleanDistributeToORofANDs c3node).bools.length = 2 ∧
    (BooleanDistributeToORofANDs c3node).bools.map
        (fun b => b.conditions.length) = [1, 1] :=
  ⟨rfl, rfl, rfl⟩

/-- The last child wins the overwritten accumulator of the distribution loop. -/
theorem distributeAndLoop_last (andConds : List ConditionWrapper) (c : PruneNode) :
    ∀ (cs : List PruneNode) (acc : List PruneNode),
      distributeAndLoop andConds (cs ++ [c]) acc =
        MakeORofAnds [] c.conditions andConds ++ c.bools := by
  intro cs
  induction cs with
  | nil => intro acc; rfl
  | cons x xs ih => intro acc; exact ih _

/-- `MakeORofAnds` with no OR conditions produces nothing. -/
theorem makeORofAnds_nil_orConds (andConds : List ConditionWrapper) :
    MakeORofAnds [] [] andConds = [] := by
  simp [MakeORofAnds]

/-- A satisfied conjunction list satisfies its last element. -/
theorem satAll_last (nu : PgNode → Bool) (c : PruneNode) :
    ∀ cs : List PruneNode, satAll nu (cs ++ [c]) = true → PruneNode.sat nu c = true := by
  intro cs
  induction cs with
  | nil => intro h; simpa [satAll, Bool.and_eq_true] using h
  | cons x xs ih =>
    intro h
    simp only [List.cons_append, satAll, Bool.and_eq_true] at h
    exact ih h.2

/-- C3 (amended): for an `AND` node whose boolean children end in an `OR`
child in separated form (no direct conditions, as every `OR` child has after
`SeparateOrConditionsFromBools`), the distribution pass returns a flat OR
consisting of exactly the last OR child's branches; the AND node's own
conditions and all earlier children's alternatives are dropped rather than
combined.  This stays sound at tree level: every valuation satisfying the
original AND node satisfies the result. -/
theorem c3_distribution_keeps_last_or_child (andConds : List ConditionWrapper)
    (cs : List PruneNode) (c : PruneNode) (hcor : c.boolOp = BoolOp.or)
    (hcc : c.conditions = []) :
    BooleanDistributeToORofANDs (PruneNode.mk BoolOp.and (cs ++ [c]) andConds) =
      PruneNode.mk BoolOp.or c.bools [] ∧
    (∀ nu : PgNode → Bool,
      PruneNode.sat nu (PruneNode.mk BoolOp.and (cs ++ [c]) andConds) = true →
      PruneNode.sat nu (PruneNode.mk BoolOp.or c.bools []) = true) := by
  have hstruct : BooleanDistributeToORofANDs
      (PruneNode.mk BoolOp.and (cs ++ [c]) andConds) =
      PruneNode.mk BoolOp.or c.bools [] := by
    have hne : ((cs ++ [c] : List PruneNode)).isEmpty = false := by
      cases cs <;> rfl
    simp [BooleanDistributeToORofANDs, OneBooleanDistributeToORofANDs, hne,
      distributeAndLoop_last, hcc, makeORofAnds_nil_orConds]
  refine ⟨hstruct, ?_⟩
  intro nu hsat
  have hallc : satAll nu (cs ++ [c]) = true := by
    simp only [PruneNode.sat, Bool.and_eq_true] at hsat
    exact hsat.1
  have hsatc : PruneNode.sat nu c = true := satAll_last nu c cs hallc
  obtain ⟨op, bc, cc⟩ := c
  simp only [PruneNode.boolOp] at hcor
  simp only [PruneNode.conditions] at hcc
  subst hcor
  subst hcc
  simp only [PruneNode.sat, List.any_nil, Bool.or_false] at hsatc
  simp only [PruneNode.bools, PruneNode.sat, List.any_nil, Bool.or_false]
  exact hsatc

/-- C3 (amended) witness: applied to the concrete node `c3node`, whose last
child is the OR of `w3`, `w4`, under the all-true valuation. -/
theorem c3_distribution_keeps_last_or_child_witness :
    BooleanDistributeToORofANDs c3node =
      PruneNode.mk BoolOp.or
        [PruneNode.mk BoolOp.and [] [c3w 3], PruneNode.mk BoolOp.and [] [c3w 4]] [] ∧
    PruneNode.sat (fun _ => true)
      (PruneNode.mk BoolOp.or
        [PruneNode.mk BoolOp.and [] [c3w 3], PruneNode.mk BoolOp.and [] [c3w 4]] []) =
      true :=
  ⟨(c3_distribution_keeps_last_or_child [c3w 0]
      [PruneNode.mk BoolOp.or
        [PruneNode.mk BoolOp.and [] [c3w 1], PruneNode.mk BoolOp.and [] [c3w 2]] []]
      (PruneNode.mk BoolOp.or
        [PruneNode.mk BoolOp.and [] [c3w 3], PruneNode.mk BoolOp.and [] [c3w 4]] [])
      rfl rfl).1,
    (c3_distribution_keeps_last_or_child [c3w 0]
      [PruneNode.mk BoolOp.or
        [PruneNode.mk BoolOp.and [] [c3w 1], PruneNode.mk BoolOp.and [] [c3w 2]] []]
      (PruneNode.mk BoolOp.or
        [PruneNode.mk BoolOp.and [] [c3w 3], PruneNode.mk BoolOp.and [] [c3w 4]] [])
      rfl rfl).2 (fun _ => true) rfl⟩






theorem minUpdate_idem (x : Option PConst) (c : PConst) :
    minUpdate (minUpdate x c) c = minUpdate x c := by
  cases x with
  | none => simp [minUpdate]
  | some d => by_cases h : c.value < d.value <;> simp [minUpdate, h]

theorem maxUpdate_idem (x : Option PConst) (c : PConst) :
    maxUpdate (maxUpdate x c) c = maxUpdate x c := by
  cases x with
  | none => simp [maxUpdate]
  | some d => by_cases h : c.value > d.value <;> simp [maxUpdate, h]

theorem epUpd_idem (ef : Option PConst × Bool) (c : PConst) :
    epUpd (epUpd ef c) c = epUpd ef c := by
  obtain ⟨e, f⟩ := ef
  cases e with
  | none => simp [epUpd]
  | some d => by_cases h : c.value ≠ d.value <;> simp [epUpd, h]

theorem eqUpdate_fields (p : PruningInstance) (c : PConst) :
    (eqUpdate p c).lessConsts = p.lessConsts ∧
    (eqUpdate p c).lessEqualConsts = p.lessEqualConsts ∧
    (eqUpdate p c).greaterEqualConsts = p.greaterEqualConsts ∧
    (eqUpdate p c).greaterConsts = p.greaterConsts ∧
    (eqUpdate p c).saoEqualConsts = p.saoEqualConsts ∧
    (eqUpdate p c).hashedEqualConsts = p.hashedEqualConsts ∧
    ((eqUpdate p c).equalConsts, (eqUpdate p c).evaluatesToFalse) =
      epUpd (p.equalConsts, p.evaluatesToFalse) c := by
  cases he : p.equalConsts with
  | none => simp [eqUpdate, epUpd, he]
  | some d => by_cases h : c.value ≠ d.value <;> simp [eqUpdate, epUpd, he, h]

theorem foldStrats_less (c : PConst) :
    ∀ (i : List Strategy) (pm : PruningInstance × Bool),
      (i.foldl (applyStrategy c) pm).1.lessConsts =
        (if i.contains Strategy.lt then minUpdate pm.1.lessConsts c
         else pm.1.lessConsts) := by
  intro i
  induction i with
  | nil => intro pm; simp
  | cons s rest ih =>
    intro pm
    rw [List.foldl_cons, ih]
    cases s <;>
      simp [applyStrategy, List.contains_cons, minUpdate_idem,
        (eqUpdate_fields pm.1 c).1]

theorem foldStrats_lessEqual (c : PConst) :
    ∀ (i : List Strategy) (pm : PruningInstance × Bool),
      (i.foldl (applyStrategy c) pm).1.lessEqualConsts =
        (if i.contains Strategy.le then minUpdate pm.1.lessEqualConsts c
         else pm.1.lessEqualConsts) := by
  intro i
  induction i with
  | nil => intro pm; simp
  | cons s rest ih =>
    intro pm
    rw [List.foldl_cons, ih]
    cases s <;>
      simp [applyStrategy, List.contains_cons, minUpdate_idem,
        (eqUpdate_fields pm.1 c).2.1]

theorem foldStrats_greaterEqual (c : PConst) :
    ∀ (i : List Strategy) (pm : PruningInstance × Bool),
      (i.foldl (applyStrategy c) pm).1.greaterEqualConsts =
        (if i.contains Strategy.ge then maxUpdate pm.1.greaterEqualConsts c
         else pm.1.greaterEqualConsts) := by
  intro i
  induction i with
  | nil => intro pm; simp
  | cons s rest ih =>
    intro pm
    rw [List.foldl_cons, ih]
    cases s <;>
      simp [applyStrategy, List.contains_cons, maxUpdate_idem,
        (eqUpdate_fields pm.1 c).2.2.1]

theorem foldStrats_greater (c : PConst) :
    ∀ (i : List Strategy) (pm : PruningInstance × Bool),
      (i.foldl (applyStrategy c) pm).1.greaterConsts =
        (if i.contains Strategy.gt then maxUpdate pm.1.greaterConsts c
         else pm.1.greaterConsts) := by
  intro i
  induction i with
  | nil => intro pm; simp
  | cons s rest ih =>
    intro pm
    rw [List.foldl_cons, ih]
    cases s <;>
      simp [applyStrategy, List.contains_cons, maxUpdate_idem,
        (eqUpdate_fields pm.1 c).2.2.2.1]

theorem foldStrats_sao (c : PConst) :
    ∀ (i : List Strategy) (pm : PruningInstance × Bool),
      (i.foldl (applyStrategy c) pm).1.saoEqualConsts = pm.1.saoEqualConsts := by
  intro i
  induction i with
  | nil => intro pm; rfl
  | cons s rest ih =>
    intro pm
    rw [List.foldl_cons, ih]
    cases s <;> simp [applyStrategy, (eqUpdate_fields pm.1 c).2.2.2.2.1]

theorem foldStrats_hashed (c : PConst) :
    ∀ (i : List Strategy) (pm : PruningInstance × Bool),
      (i.foldl (applyStrategy c) pm).1.hashedEqualConsts = pm.1.hashedEqualConsts := by
  intro i
  induction i with
  | nil => intro pm; rfl
  | cons s rest ih =>
    intro pm
    rw [List.foldl_cons, ih]
    cases s <;> simp [applyStrategy, (eqUpdate_fields pm.1 c).2.2.2.2.2.1]

theorem foldStrats_equal_pair (c : PConst) :
    ∀ (i : List Strategy) (pm : PruningInstance × Bool),
      ((i.foldl (applyStrategy c) pm).1.equalConsts,
        (i.foldl (applyStrategy c) pm).1.evaluatesToFalse) =
        (if i.contains Strategy.eq then epUpd (pm.1.equalConsts, pm.1.evaluatesToFalse) c
         else (pm.1.equalConsts, pm.1.evaluatesToFalse)) := by
  intro i
  induction i with
  | nil => intro pm; simp
  | cons s rest ih =>
    intro pm
    rw [List.foldl_cons, ih]
    cases s <;>
      simp [applyStrategy, List.contains_cons, epUpd_idem,
        (eqUpdate_fields pm.1 c).2.2.2.2.2.2]



/-- The fields of `AddPartitionKeyRestrictionToInstance` that pruning reads. -/
theorem addPKR_fields (n : PgNode) (i : List Strategy) (c : PConst)
    (p : PruningInstance) :
    (AddPartitionKeyRestrictionToInstance n i c p).lessConsts =
      (if i.contains Strategy.lt then minUpdate p.lessConsts c else p.lessConsts) ∧
    (AddPartitionKeyRestrictionToInstance n i c p).lessEqualConsts =
      (if i.contains Strategy.le then minUpdate p.lessEqualConsts c
       else p.lessEqualConsts) ∧
    (AddPartitionKeyRestrictionToInstance n i c p).greaterEqualConsts =
      (if i.contains Strategy.ge then maxUpdate p.greaterEqualConsts c
       else p.greaterEqualConsts) ∧
    (AddPartitionKeyRestrictionToInstance n i c p).greaterConsts =
      (if i.contains Strategy.gt then maxUpdate p.greaterConsts c
       else p.greaterConsts) ∧
    ((AddPartitionKeyRestrictionToInstance n i c p).equalConsts,
      (AddPartitionKeyRestrictionToInstance n i c p).evaluatesToFalse) =
      (if i.contains Strategy.eq then epUpd (p.equalConsts, p.evaluatesToFalse) c
       else (p.equalConsts, p.evaluatesToFalse)) ∧
    (AddPartitionKeyRestrictionToInstance n i c p).saoEqualConsts = p.saoEqualConsts ∧
    (AddPartitionKeyRestrictionToInstance n i c p).hashedEqualConsts =
      p.hashedEqualConsts := by
  have h1 := foldStrats_less c i (p, false)
  have h2 := foldStrats_lessEqual c i (p, false)
  have h3 := foldStrats_greaterEqual c i (p, false)
  have h4 := foldStrats_greater c i (p, false)
  have h5 := foldStrats_equal_pair c i (p, false)
  have h6 := foldStrats_sao c i (p, false)
  have h7 := foldStrats_hashed c i (p, false)
  by_cases h : (List.foldl (applyStrategy c) (p, false) i).2 = true <;>
    simp [AddPartitionKeyRestrictionToInstance, h] at * <;>
    exact ⟨h1, h2, h3, h4, h5, h6, h7⟩

/-- The equivalence on pruning instances preserved by reordering the fold:
equal always-false flags, and value-equal bound constants in all the fields
`PruneOne` reads (the stored equality constant is only constrained while the
instance is not yet always-false). -/

theorem instRel_refl (p : PruningInstance) : instRel p p :=
  ⟨rfl, fun _ => rfl, rfl, rfl, rfl, rfl, rfl, rfl⟩

theorem instRel_trans {p q r : PruningInstance} (h1 : instRel p q)
    (h2 : instRel q r) : instRel p r := by
  obtain ⟨a1, a2, a3, a4, a5, a6, a7, a8⟩ := h1
  obtain ⟨b1, b2, b3, b4, b5, b6, b7, b8⟩ := h2
  refine ⟨a1.trans b1, ?_, a3.trans b3, a4.trans b4, a5.trans b5, a6.trans b6,
    a7.trans b7, a8.trans b8⟩
  intro hf
  exact (a2 hf).trans (b2 (a1 ▸ hf))

theorem valOf_minUpdate_none {x : Option PConst} (c : PConst)
    (h : valOf x = Option.none) : valOf (minUpdate x c) = some c.value := by
  cases x <;> simp [valOf] at h ⊢ <;> simp [minUpdate, valOf]

theorem valOf_minUpdate_some {x : Option PConst} {v : Int} (c : PConst)
    (h : valOf x = some v) : valOf (minUpdate x c) = some (min c.value v) := by
  cases x with
  | none => simp [valOf] at h
  | some d =>
    simp [valOf] at h
    subst h
    simp only [minUpdate]
    split_ifs <;> simp [valOf] <;> omega

theorem valOf_maxUpdate_none {x : Option PConst} (c : PConst)
    (h : valOf x = Option.none) : valOf (maxUpdate x c) = some c.value := by
  cases x <;> simp [valOf] at h ⊢ <;> simp [maxUpdate, valOf]

theorem valOf_maxUpdate_some {x : Option PConst} {v : Int} (c : PConst)
    (h : valOf x = some v) : valOf (maxUpdate x c) = some (max c.value v) := by
  cases x with
  | none => simp [valOf] at h
  | some d =>
    simp [valOf] at h
    subst h
    simp only [maxUpdate]
    split_ifs <;> simp [valOf] <;> omega

theorem valOf_minUpdate_congr {a b : Option PConst} (c : PConst)
    (h : valOf a = valOf b) : valOf (minUpdate a c) = valOf (minUpdate b c) := by
  rcases hv : valOf a with _ | v
  · rw [valOf_minUpdate_none c hv, valOf_minUpdate_none c (h ▸ hv)]
  · rw [valOf_minUpdate_some c hv, valOf_minUpdate_some c (h ▸ hv)]

theorem valOf_maxUpdate_congr {a b : Option PConst} (c : PConst)
    (h : valOf a = valOf b) : valOf (maxUpdate a c) = valOf (maxUpdate b c) := by
  rcases hv : valOf a with _ | v
  · rw [valOf_maxUpdate_none c hv, valOf_maxUpdate_none c (h ▸ hv)]
  · rw [valOf_maxUpdate_some c hv, valOf_maxUpdate_some c (h ▸ hv)]

theorem valOf_minUpdate_swap (x : Option PConst) (c1 c2 : PConst) :
    valOf (minUpdate (minUpdate x c1) c2) = valOf (minUpdate (minUpdate x c2) c1) := by
  rcases hv : valOf x with _ | v
  · rw [valOf_minUpdate_some c2 (valOf_minUpdate_none c1 hv),
      valOf_minUpdate_some c1 (valOf_minUpdate_none c2 hv)]
    simp [Int.min_comm]
  · rw [valOf_minUpdate_some c2 (valOf_minUpdate_some c1 hv),
      valOf_minUpdate_some c1 (valOf_minUpdate_some c2 hv)]
    congr 1
    omega

theorem valOf_maxUpdate_swap (x : Option PConst) (c1 c2 : PConst) :
    valOf (maxUpdate (maxUpdate x c1) c2) = valOf (maxUpdate (maxUpdate x c2) c1) := by
  rcases hv : valOf x with _ | v
  · rw [valOf_maxUpdate_some c2 (valOf_maxUpdate_none c1 hv),
      valOf_maxUpdate_some c1 (valOf_maxUpdate_none c2 hv)]
    simp [Int.max_comm]
  · rw [valOf_maxUpdate_some c2 (valOf_maxUpdate_some c1 hv),
      valOf_maxUpdate_some c1 (valOf_maxUpdate_some c2 hv)]
    congr 1
    omega


theorem relEP_congr {a b : Option PConst × Bool} (c : PConst) (h : relEP a b) :
    relEP (epUpd a c) (epUpd b c) := by
  obtain ⟨e1, f1⟩ := a
  obtain ⟨e2, f2⟩ := b
  obtain ⟨hf, he⟩ := h
  simp at hf
  subst hf
  cases hb : f1
  · have hev := he hb
    cases e1 <;> cases e2 <;> simp [valOf] at hev <;>
      simp [epUpd, relEP, valOf, hev]
    split_ifs <;> simp [valOf, hev]
  · cases e1 <;> cases e2 <;> simp [epUpd, relEP, valOf]


theorem relEP_swap (ef : Option PConst × Bool) (c1 c2 : PConst) :
    relEP (epUpd (epUpd ef c1) c2) (epUpd (epUpd ef c2) c1) := by
  obtain ⟨e, f⟩ := ef
  cases e with
  | none =>
    by_cases h : c1.value = c2.value
    · simp [epUpd, relEP, valOf, h]
    · have h' : ¬(c2.value = c1.value) := fun hh => h hh.symm
      simp [epUpd, relEP, valOf, h, h']
  | some d =>
    by_cases h1 : c1.value = d.value <;> by_cases h2 : c2.value = d.value <;>
      simp [epUpd, relEP, valOf, h1, h2]


theorem instRel_addStep_congr {p q : PruningInstance}
    (t : PgNode × List Strategy × PConst) (h : instRel p q) :
    instRel (addStep p t) (addStep q t) := by
  obtain ⟨n, i, c⟩ := t
  simp only [addStep]
  obtain ⟨hf, he, hl, hle, hge, hg, hs, hh⟩ := h
  obtain ⟨p1, p2, p3, p4, p5, p6, p7⟩ := addPKR_fields n i c p
  obtain ⟨q1, q2, q3, q4, q5, q6, q7⟩ := addPKR_fields n i c q
  have hpair : relEP
      ((AddPartitionKeyRestrictionToInstance n i c p).equalConsts,
        (AddPartitionKeyRestrictionToInstance n i c p).evaluatesToFalse)
      ((AddPartitionKeyRestrictionToInstance n i c q).equalConsts,
        (AddPartitionKeyRestrictionToInstance n i c q).evaluatesToFalse) := by
    rw [p5, q5]
    by_cases hc : i.contains Strategy.eq <;> simp only [hc, if_true, if_false]
    · exact relEP_congr c ⟨hf, he⟩
    · exact ⟨hf, he⟩
  refine ⟨hpair.1, hpair.2, ?_, ?_, ?_, ?_, ?_, ?_⟩
  · rw [p1, q1]
    by_cases hc : i.contains Strategy.lt <;> simp only [hc, if_true, if_false]
    · exact valOf_minUpdate_congr c hl
    · exact hl
  · rw [p2, q2]
    by_cases hc : i.contains Strategy.le <;> simp only [hc, if_true, if_false]
    · exact valOf_minUpdate_congr c hle
    · exact hle
  · rw [p3, q3]
    by_cases hc : i.contains Strategy.ge <;> simp only [hc, if_true, if_false]
    · exact valOf_maxUpdate_congr c hge
    · exact hge
  · rw [p4, q4]
    by_cases hc : i.contains Strategy.gt <;> simp only [hc, if_true, if_false]
    · exact valOf_maxUpdate_congr c hg
    · exact hg
  · rw [p6, q6]; exact hs
  · rw [p7, q7]; exact hh



theorem relEP_refl (a : Option PConst × Bool) : relEP a a := ⟨rfl, fun _ => rfl⟩

theorem instRel_addStep_swap (p : PruningInstance)
    (t1 t2 : PgNode × List Strategy × PConst) :
    instRel (addStep (addStep p t1) t2) (addStep (addStep p t2) t1) := by
  obtain ⟨n1, i1, c1⟩ := t1
  obtain ⟨n2, i2, c2⟩ := t2
  simp only [addStep]
  obtain ⟨a1, a2, a3, a4, a5, a6, a7⟩ :=
    addPKR_fields n2 i2 c2 (AddPartitionKeyRestrictionToInstance n1 i1 c1 p)
  obtain ⟨b1, b2, b3, b4, b5, b6, b7⟩ := addPKR_fields n1 i1 c1 p
  obtain ⟨d1, d2, d3, d4, d5, d6, d7⟩ :=
    addPKR_fields n1 i1 c1 (AddPartitionKeyRestrictionToInstance n2 i2 c2 p)
  obtain ⟨e1, e2, e3, e4, e5, e6, e7⟩ := addPKR_fields n2 i2 c2 p
  have hpair : relEP
      ((AddPartitionKeyRestrictionToInstance n2 i2 c2
          (AddPartitionKeyRestrictionToInstance n1 i1 c1 p)).equalConsts,
        (AddPartitionKeyRestrictionToInstance n2 i2 c2
          (AddPartitionKeyRestrictionToInstance n1 i1 c1 p)).evaluatesToFalse)
      ((AddPartitionKeyRestrictionToInstance n1 i1 c1
          (AddPartitionKeyRestrictionToInstance n2 i2 c2 p)).equalConsts,
        (AddPartitionKeyRestrictionToInstance n1 i1 c1
          (AddPartitionKeyRestrictionToInstance n2 i2 c2 p)).evaluatesToFalse) := by
    rw [a5, b5, d5, e5]
    by_cases hc1 : i1.contains Strategy.eq <;> by_cases hc2 : i2.contains Strategy.eq <;>
      simp only [hc1, hc2, if_true, if_false]
    · exact relEP_swap (p.equalConsts, p.evaluatesToFalse) c1 c2
    · exact relEP_refl _
    · exact relEP_refl _
    · exact relEP_refl _
  refine ⟨hpair.1, hpair.2, ?_, ?_, ?_, ?_, ?_, ?_⟩
  · rw [a1, b1, d1, e1]
    by_cases hc1 : i1.contains Strategy.lt <;> by_cases hc2 : i2.contains Strategy.lt <;>
      simp only [hc1, hc2, if_true, if_false] <;>
      first
        | exact valOf_minUpdate_swap p.lessConsts c1 c2
        | rfl
  · rw [a2, b2, d2, e2]
    by_cases hc1 : i1.contains Strategy.le <;> by_cases hc2 : i2.contains Strategy.le <;>
      simp only [hc1, hc2, if_true, if_false] <;>
      first
        | exact valOf_minUpdate_swap p.lessEqualConsts c1 c2
        | rfl
  · rw [a3, b3, d3, e3]
    by_cases hc1 : i1.contains Strategy.ge <;> by_cases hc2 : i2.contains Strategy.ge <;>
      simp only [hc1, hc2, if_true, if_false] <;>
      first
        | exact valOf_maxUpdate_swap p.greaterEqualConsts c1 c2
        | rfl
  · rw [a4, b4, d4, e4]
    by_cases hc1 : i1.contains Strategy.gt <;> by_cases hc2 : i2.contains Strategy.gt <;>
      simp only [hc1, hc2, if_true, if_false] <;>
      first
        | exact valOf_maxUpdate_swap p.greaterConsts c1 c2
        | rfl
  · rw [a6, b6, d6, e6]
  · rw [a7, b7, d7, e7]

/-- Folding the same condition list preserves the equivalence. -/
theorem instRel_foldl_congr (l : List (PgNode × List Strategy × PConst)) :
    ∀ {p q : PruningInstance}, instRel p q →
      instRel (l.foldl addStep p) (l.foldl addStep q) := by
  induction l with
  | nil => intro p q h; exact h
  | cons t rest ih =>
    intro p q h
    exact ih (instRel_addStep_congr t h)

theorem instRel_foldl_perm {l l' : List (PgNode × List Strategy × PConst)}
    (hperm : l.Perm l') :
    ∀ (p q : PruningInstance), instRel p q →
      instRel (l.foldl addStep p) (l'.foldl addStep q) := by
  induction hperm with
  | nil => intro p q h; exact h
  | cons x _ ih =>
    intro p q h
    exact ih _ _ (instRel_addStep_congr x h)
  | swap x y l =>
    intro p q h
    simp only [List.foldl_cons]
    have hseed : instRel (addStep (addStep p y) x) (addStep (addStep q x) y) :=
      instRel_trans (instRel_addStep_swap p y x)
        (instRel_addStep_congr y (instRel_addStep_congr x h))
    exact instRel_foldl_congr l hseed
  | trans _ _ ih1 ih2 =>
    intro p q h
    exact instRel_trans (ih1 p p (instRel_refl p)) (ih2 p q h)



theorem valOf_cases {a b : Option PConst} (h : valOf a = valOf b) :
    (a = Option.none ∧ b = Option.none) ∨
      ∃ c d, a = some c ∧ b = some d ∧ c.value = d.value := by
  cases a with
  | none =>
    cases b with
    | none => exact Or.inl ⟨rfl, rfl⟩
    | some d => simp [valOf] at h
  | some c =>
    cases b with
    | none => simp [valOf] at h
    | some d =>
      simp [valOf] at h
      exact Or.inr ⟨c, d, rfl, rfl, h⟩

theorem valOf_isSome {a b : Option PConst} (h : valOf a = valOf b) :
    a.isSome = b.isSome := by
  rcases valOf_cases h with ⟨rfl, rfl⟩ | ⟨c, d, rfl, rfl, _⟩ <;> rfl

theorem ExhaustivePruneOne_congr (cur : ShardInterval) {p q : PruningInstance}
    (h : instRel p q) (hf : p.evaluatesToFalse = false) :
    ExhaustivePruneOne cur p = ExhaustivePruneOne cur q := by
  obtain ⟨hF, hE, hL, hLE, hGE, hG, hS, hH⟩ := h
  rcases valOf_cases (hE hf) with ⟨he1, he2⟩ | ⟨c, d, he1, he2, hev⟩ <;>
    rcases valOf_cases hL with ⟨hl1, hl2⟩ | ⟨lc, ld, hl1, hl2, hlv⟩ <;>
    rcases valOf_cases hLE with ⟨hle1, hle2⟩ | ⟨lec, led, hle1, hle2, hlev⟩ <;>
    rcases valOf_cases hGE with ⟨hge1, hge2⟩ | ⟨gec, ged, hge1, hge2, hgev⟩ <;>
    rcases valOf_cases hG with ⟨hg1, hg2⟩ | ⟨gc, gd, hg1, hg2, hgv⟩ <;>
    simp [ExhaustivePruneOne, he1, he2, hl1, hl2, hle1, hle2, hge1, hge2,
      hg1, hg2, hS]
  all_goals simp_all

theorem ExhaustivePrune_congr (ce : CacheEntry) {p q : PruningInstance}
    (h : instRel p q) (hf : p.evaluatesToFalse = false) :
    ExhaustivePrune ce p = ExhaustivePrune ce q := by
  unfold ExhaustivePrune
  congr 1
  funext cur
  rw [ExhaustivePruneOne_congr cur h hf]

theorem PruneWithBoundaries_congr (ce : CacheEntry) {p q : PruningInstance}
    (h : instRel p q) : PruneWithBoundaries ce p = PruneWithBoundaries ce q := by
  obtain ⟨hF, hE, hL, hLE, hGE, hG, hS, hH⟩ := h
  rcases valOf_cases hL with ⟨hl1, hl2⟩ | ⟨lc, ld, hl1, hl2, hlv⟩ <;>
    rcases valOf_cases hLE with ⟨hle1, hle2⟩ | ⟨lec, led, hle1, hle2, hlev⟩ <;>
    rcases valOf_cases hGE with ⟨hge1, hge2⟩ | ⟨gec, ged, hge1, hge2, hgev⟩ <;>
    rcases valOf_cases hG with ⟨hg1, hg2⟩ | ⟨gc, gd, hg1, hg2, hgv⟩ <;>
    simp [PruneWithBoundaries, hl1, hl2, hle1, hle2, hge1, hge2, hg1, hg2]
  all_goals simp_all

theorem pruneOneRest_congr (ce : CacheEntry) {p q : PruningInstance}
    (h : instRel p q) (hf : p.evaluatesToFalse = false)
    (acc : List ShardInterval) :
    pruneOneRest ce p acc = pruneOneRest ce q acc := by
  have hEP : ∀ si, ExhaustivePruneOne si p = ExhaustivePruneOne si q :=
    fun si => ExhaustivePruneOne_congr si h hf
  have hPWB := PruneWithBoundaries_congr ce h
  have hEPr := ExhaustivePrune_congr ce h hf
  obtain ⟨hF, hE, hL, hLE, hGE, hG, hS, hH⟩ := h
  have hany : (acc.any fun si =>
      decide (ce.partitionMethod ≠ PartitionMethod.byHash) && ExhaustivePruneOne si p) =
      (acc.any fun si =>
      decide (ce.partitionMethod ≠ PartitionMethod.byHash) && ExhaustivePruneOne si q) := by
    congr 1
    funext si
    rw [hEP si]
  simp only [pruneOneRest, hany, hPWB, hEPr, valOf_isSome hL, valOf_isSome hLE,
    valOf_isSome hGE, valOf_isSome hG]

theorem pruneOneHashed_congr (ce : CacheEntry) {p q : PruningInstance}
    (h : instRel p q) (hf : p.evaluatesToFalse = false)
    (acc : List ShardInterval) :
    pruneOneHashed ce p acc = pruneOneHashed ce q acc := by
  have hH := h.2.2.2.2.2.2.2
  simp only [pruneOneHashed, hH]
  cases q.hashedEqualConsts with
  | none => exact pruneOneRest_congr ce h hf acc
  | some hc => rfl

theorem pruneOneSao_congr (ce : CacheEntry) {p q : PruningInstance}
    (h : instRel p q) (hf : p.evaluatesToFalse = false)
    (acc : List ShardInterval) :
    pruneOneSao ce p acc = pruneOneSao ce q acc := by
  have hS := h.2.2.2.2.2.2.1
  simp only [pruneOneSao, hS]
  split
  · split
    · rfl
    · exact pruneOneHashed_congr ce h hf _
  · exact pruneOneHashed_congr ce h hf acc

theorem PruneOne_congr (ce : CacheEntry) {p q : PruningInstance}
    (h : instRel p q) : PruneOne ce p = PruneOne ce q := by
  have hF := h.1
  simp only [PruneOne, hF]
  cases hfq : q.evaluatesToFalse
  · have hf : p.evaluatesToFalse = false := hF.trans hfq
    simp only [Bool.false_eq_true, if_false]
    rcases valOf_cases (h.2.1 hf) with ⟨he1, he2⟩ | ⟨c, d, he1, he2, hev⟩
    · simp only [he1, he2]
      exact pruneOneSao_congr ce h hf []
    · simp only [he1, he2, hev]
      split
      · cases FindShardInterval d.value ce with
        | none => rfl
        | some si => exact pruneOneSao_congr ce h hf [si]
      · exact pruneOneSao_congr ce h hf []
  · simp



/-- C6: the accumulator fold keeps the smaller of two upper bounds and the
larger of two lower bounds, and the shard list `PruneOne` produces for a
branch is identical for every order in which the branch's classified
partition-key conditions are folded into the bag. -/
theorem c6_accumulator_fold_order_independent :
    (∀ (n1 n2 : PgNode) (c1 c2 : PConst),
      (AddPartitionKeyRestrictionToInstance n2 [Strategy.lt] c2
        (AddPartitionKeyRestrictionToInstance n1 [Strategy.lt] c1
          emptyInstance)).lessConsts =
        some (if c2.value < c1.value then c2 else c1) ∧
      (AddPartitionKeyRestrictionToInstance n2 [Strategy.le] c2
        (AddPartitionKeyRestrictionToInstance n1 [Strategy.le] c1
          emptyInstance)).lessEqualConsts =
        some (if c2.value < c1.value then c2 else c1) ∧
      (AddPartitionKeyRestrictionToInstance n2 [Strategy.ge] c2
        (AddPartitionKeyRestrictionToInstance n1 [Strategy.ge] c1
          emptyInstance)).greaterEqualConsts =
        some (if c2.value > c1.value then c2 else c1) ∧
      (AddPartitionKeyRestrictionToInstance n2 [Strategy.gt] c2
        (AddPartitionKeyRestrictionToInstance n1 [Strategy.gt] c1
          emptyInstance)).greaterConsts =
        some (if c2.value > c1.value then c2 else c1)) ∧
    (∀ (conds conds' : List (PgNode × List Strategy × PConst)),
      conds.Perm conds' → ∀ ce : CacheEntry,
        PruneOne ce (foldPartitionKeyRestrictions conds emptyInstance) =
          PruneOne ce (foldPartitionKeyRestrictions conds' emptyInstance)) := by
  constructor
  · intro n1 n2 c1 c2
    refine ⟨?_, ?_, ?_, ?_⟩ <;>
      simp [AddPartitionKeyRestrictionToInstance, applyStrategy, minUpdate,
        maxUpdate, emptyInstance] <;>
      split_ifs <;> rfl
  · intro conds conds' hperm ce
    exact PruneOne_congr ce
      (instRel_foldl_perm hperm emptyInstance emptyInstance (instRel_refl _))


/-- C6 witness: the two-condition branch `col < 5 AND col > 3` folded in both
orders on the demo table. -/
theorem c6_accumulator_fold_order_independent_witness :
    ([((PgNode.otherExpr, [Strategy.lt], (⟨PType.intT, 5, false⟩ : PConst)) :
        PgNode × List Strategy × PConst),
      (PgNode.otherExpr, [Strategy.gt], (⟨PType.intT, 3, false⟩ : PConst))].Perm
      [(PgNode.otherExpr, [Strategy.gt], (⟨PType.intT, 3, false⟩ : PConst)),
        (PgNode.otherExpr, [Strategy.lt], (⟨PType.intT, 5, false⟩ : PConst))]) ∧
    PruneOne demoTable
        (foldPartitionKeyRestrictions
          [(PgNode.otherExpr, [Strategy.lt], (⟨PType.intT, 5, false⟩ : PConst)),
            (PgNode.otherExpr, [Strategy.gt], (⟨PType.intT, 3, false⟩ : PConst))]
          emptyInstance) =
      PruneOne demoTable
        (foldPartitionKeyRestrictions
          [(PgNode.otherExpr, [Strategy.gt], (⟨PType.intT, 3, false⟩ : PConst)),
            (PgNode.otherExpr, [Strategy.lt], (⟨PType.intT, 5, false⟩ : PConst))]
          emptyInstance) :=
  ⟨List.Perm.swap _ _ _,
    c6_accumulator_fold_order_independent.2 _ _ (List.Perm.swap _ _ _) demoTable⟩

end ShardPruning
